import Mathlib

/-!
Verification of the core of the nutrition-langchain repository against its
specification.

Shallow embedding conventions:
* Python strings are modeled as lists of Unicode code points (`List Nat`);
  `codes` turns a Lean string literal into such a list for concrete inputs.
* Python floats are modeled as exact rationals (`ℚ`).  All comparisons the
  code performs on scores and gram amounts are far from representation
  boundaries at every concrete input used below, so the exact-rational model
  agrees with IEEE evaluation there.
* Database state is passed explicitly; fallible steps return `Except`.
* External collaborators (the OpenAI classifier and nutrition-card generator)
  are parameters of the functions that call them.
-/

namespace NutriSpec

/-- Code points of a Lean string literal; used to write concrete inputs. -/
def codes (s : String) : List Nat := s.data.map Char.toNat

/-- ASCII decimal digit (regex `\d` on the ASCII strings in scope). -/
def isDigitChar (c : Nat) : Bool := 48 ≤ c && c ≤ 57

/-- Character class of the regex `[A-Za-z0-9]` (utils._WORD). -/
def isWordChar (c : Nat) : Bool := (65 ≤ c && c ≤ 90) || (97 ≤ c && c ≤ 122) || isDigitChar c

/-- ASCII letter; Python str.isalpha restricted to the ASCII strings in scope. -/
def isAlphaChar (c : Nat) : Bool := (65 ≤ c && c ≤ 90) || (97 ≤ c && c ≤ 122)

/-- Python str.lower() per character.  Code points outside the ASCII uppercase
range are left unchanged; this agrees with Python on every ASCII string, and
non-ASCII code points only ever act as token separators downstream. -/
def pyLower (c : Nat) : Nat := if 65 ≤ c ∧ c ≤ 90 then c + 32 else c

/-- Whitespace as used by str.strip() and str.split() (ASCII whitespace;
the exotic Unicode space code points never occur in the strings in scope). -/
def isSpaceChar (c : Nat) : Bool := c = 32 || (9 ≤ c && c ≤ 13)

/-- Python str.strip(): drop whitespace from both ends. -/
def pyStrip (l : List Nat) : List Nat :=
  ((l.dropWhile isSpaceChar).reverse.dropWhile isSpaceChar).reverse

/-- The `.replace("â€™", "'")` step of utils._norm: the mojibake sequence of
code points [226, 8364, 8482] is replaced by an apostrophe (39). -/
def replaceMoji : List Nat → List Nat
  | 226 :: 8364 :: 8482 :: rest => 39 :: replaceMoji rest
  | c :: rest => c :: replaceMoji rest
  | [] => []

/-- Maximal runs of characters satisfying `p` (shared shape of
`re.findall(r"[A-Za-z0-9]+", s)` and of Python str.split()), with structural
fuel so that the kernel can evaluate it; `l.length` fuel always suffices
because each step consumes at least one character. -/
def runSplitF (p : Nat → Bool) : Nat → List Nat → List (List Nat)
  | 0, _ => []
  | _ + 1, [] => []
  | fuel + 1, c :: rest =>
    if p c then
      (c :: rest.takeWhile p) :: runSplitF p fuel (rest.dropWhile p)
    else
      runSplitF p fuel rest

/-- Maximal runs of characters satisfying `p`. -/
def runSplit (p : Nat → Bool) (l : List Nat) : List (List Nat) := runSplitF p l.length l

/-- `re.findall(r"[A-Za-z0-9]+", s)` — the `_WORD.findall` of utils._norm. -/
def pyWordTokens (l : List Nat) : List (List Nat) := runSplit isWordChar l

/-- Python str.split() with no argument: maximal runs of non-whitespace. -/
def pySplitWs (l : List Nat) : List (List Nat) := runSplit (fun c => !isSpaceChar c) l

/-- utils._STOP.  (The hyphenated entries can never equal a `[A-Za-z0-9]+`
token, but they are kept verbatim from the source.) -/
def stopWords : List (List Nat) :=
  [codes "fresh", codes "organic", codes "raw", codes "cooked", codes "dry", codes "dried",
   codes "unsalted", codes "salted", codes "low-fat", codes "lowfat", codes "reduced-fat",
   codes "lean", codes "skinless", codes "boneless", codes "plain",
   codes "firm", codes "extra-firm", codes "silken", codes "soft", codes "extra"]

/-- Python " ".join(tokens). -/
def joinSp : List (List Nat) → List Nat
  | [] => []
  | [t] => t
  | t :: ts => t ++ 32 :: joinSp ts

/-- utils._norm: lower-case, fix the mojibake apostrophe, strip, keep the
`[A-Za-z0-9]+` tokens that are not stop words, and re-join with single
spaces.  (`s or ""` only guards against None, which cannot occur here.) -/
def _norm (s : List Nat) : List Nat :=
  joinSp ((pyWordTokens (pyStrip (replaceMoji (s.map pyLower)))).filter
    (fun t => !stopWords.contains t))

/-- utils._token_set: `set(_norm(s).split())`.  The Python set is modeled as
the split list itself; callers only test membership, overlap and inclusion,
for which duplicates and order are irrelevant. -/
def _token_set (s : List Nat) : List (List Nat) := pySplitWs (_norm s)

/-- The filtered word tokens whose join is _norm s. -/
def normToks (s : List Nat) : List (List Nat) :=
  (pyWordTokens (pyStrip (replaceMoji (s.map pyLower)))).filter
    (fun t => !stopWords.contains t)

/-!
### difflib.SequenceMatcher

fuzzywuzzy's scorers delegate to difflib's pure-Python SequenceMatcher when
python-Levenshtein is not installed; the repository pins no such dependency,
so that default backend is what is embedded here (isjunk=None, autojunk on).
-/

/-- Lookup in the j2len dictionaries of find_longest_match (missing key → 0). -/
def alGet (m : List (Nat × Nat)) (k : Nat) : Nat :=
  match m.find? (fun kv => kv.1 == k) with
  | some kv => kv.2
  | none => 0

/-- difflib __chain_b popularity test: with autojunk (the default) and
len(b) >= 200, elements occurring more than len(b)//100 + 1 times become
junk ("popular") and are dropped from b2j. -/
def isPopular (b : List Nat) (c : Nat) : Bool :=
  200 ≤ b.length && b.length / 100 + 1 < b.count c

/-- difflib b2j: the ascending list of indices of c in b, with popular
elements removed. -/
def b2j (b : List Nat) (c : Nat) : List Nat :=
  if isPopular b c then [] else (List.range b.length).filter (fun j => b.getD j 0 == c)

/-- One row (fixed i) of the find_longest_match dynamic program — the
`for j in b2j.get(a[i], [])` loop.  The `continue` (j < blo) and `break`
(j >= bhi) on the ascending index list are the range filter.  Python's
`j2len.get(j-1, 0)` looks up key -1 when j = 0, which is always absent. -/
def flmRow (j2len : List (Nat × Nat)) (i blo bhi : Nat) (js : List Nat)
    (best : Nat × Nat × Nat) : List (Nat × Nat) × (Nat × Nat × Nat) :=
  (js.filter (fun j => blo ≤ j && j < bhi)).foldl
    (fun (st : List (Nat × Nat) × (Nat × Nat × Nat)) j =>
      let k := (if j = 0 then 0 else alGet j2len (j - 1)) + 1
      let row := st.1 ++ [(j, k)]
      if st.2.2.2 < k then (row, (i + 1 - k, j + 1 - k, k)) else (row, st.2))
    ([], best)

/-- The leftward extension while-loops of find_longest_match; `junkWanted`
selects the junk or the non-junk loop (junk = popular under autojunk).
Structural fuel: each iteration decrements besti and requires alo < besti,
so fuel = the initial besti runs the loop to its Python exit condition
(when the fuel hits 0, besti is 0 and the guard alo < besti fails anyway). -/
def extendLeftF (a b : List Nat) (alo blo : Nat) (junkWanted : Bool) :
    Nat → Nat × Nat × Nat → Nat × Nat × Nat
  | 0, st => st
  | fuel + 1, (besti, bestj, bestsize) =>
    if alo < besti ∧ blo < bestj ∧ isPopular b (b.getD (bestj - 1) 0) = junkWanted ∧
        a.getD (besti - 1) 0 = b.getD (bestj - 1) 0 then
      extendLeftF a b alo blo junkWanted fuel (besti - 1, bestj - 1, bestsize + 1)
    else
      (besti, bestj, bestsize)

/-- The leftward extension loop with its sufficient fuel. -/
def extendLeft (a b : List Nat) (alo blo : Nat) (junkWanted : Bool)
    (st : Nat × Nat × Nat) : Nat × Nat × Nat :=
  extendLeftF a b alo blo junkWanted st.1 st

/-- The rightward extension while-loops of find_longest_match.  Structural
fuel: each iteration increments bestsize and requires besti + bestsize <
ahi, so fuel = ahi runs the loop to its Python exit condition. -/
def extendRightF (a b : List Nat) (ahi bhi : Nat) (junkWanted : Bool) :
    Nat → Nat × Nat × Nat → Nat × Nat × Nat
  | 0, st => st
  | fuel + 1, (besti, bestj, bestsize) =>
    if besti + bestsize < ahi ∧ bestj + bestsize < bhi ∧
        isPopular b (b.getD (bestj + bestsize) 0) = junkWanted ∧
        a.getD (besti + bestsize) 0 = b.getD (bestj + bestsize) 0 then
      extendRightF a b ahi bhi junkWanted fuel (besti, bestj, bestsize + 1)
    else
      (besti, bestj, bestsize)

/-- The rightward extension loop with its sufficient fuel. -/
def extendRight (a b : List Nat) (ahi bhi : Nat) (junkWanted : Bool)
    (st : Nat × Nat × Nat) : Nat × Nat × Nat :=
  extendRightF a b ahi bhi junkWanted ahi st

/-- difflib SequenceMatcher.find_longest_match on a[alo:ahi] vs b[blo:bhi]. -/
def findLongestMatch (a b : List Nat) (alo ahi blo bhi : Nat) : Nat × Nat × Nat :=
  let phase1 :=
    (List.range' alo (ahi - alo)).foldl
      (fun (st : List (Nat × Nat) × (Nat × Nat × Nat)) i =>
        flmRow st.1 i blo bhi (b2j b (a.getD i 0)) st.2)
      ([], (alo, blo, 0))
  extendRight a b ahi bhi true
    (extendLeft a b alo blo true
      (extendRight a b ahi bhi false
        (extendLeft a b alo blo false phase1.2)))

/-- Lexicographic order on block triples (Python tuple sort). -/
def blockLe (x y : Nat × Nat × Nat) : Bool :=
  decide (x.1 < y.1 ∨ (x.1 = y.1 ∧ (x.2.1 < y.2.1 ∨ (x.2.1 = y.2.1 ∧ x.2.2 ≤ y.2.2))))

/-- The queue loop of difflib get_matching_blocks.  `queue.pop()` takes the
most recently pushed interval, so the queue is a stack whose top is the head
here (the right sub-interval is pushed after the left one and popped first).
Fuel bounds the number of pops: the total interval size plus the stack
length starts at la + lb + 1 and strictly decreases with every pop, so
la + lb + 2 units of fuel can never run out. -/
def mbLoop (a b : List Nat) : Nat → List (Nat × Nat × Nat × Nat) →
    List (Nat × Nat × Nat) → List (Nat × Nat × Nat)
  | 0, _, acc => acc
  | _ + 1, [], acc => acc
  | fuel + 1, (alo, ahi, blo, bhi) :: rest, acc =>
    let m := findLongestMatch a b alo ahi blo bhi
    let i := m.1
    let j := m.2.1
    let k := m.2.2
    if k = 0 then mbLoop a b fuel rest acc
    else
      let withLeft : List (Nat × Nat × Nat × Nat) :=
        if alo < i ∧ blo < j then [(alo, i, blo, j)] else []
      let withRight : List (Nat × Nat × Nat × Nat) :=
        if i + k < ahi ∧ j + k < bhi then [(i + k, ahi, j + k, bhi)] else []
      mbLoop a b fuel (withRight ++ withLeft ++ rest) (acc ++ [(i, j, k)])

/-- Collapse adjacent equal blocks (the non_adjacent loop of
get_matching_blocks). -/
def collapseBlocks (l : List (Nat × Nat × Nat)) : List (Nat × Nat × Nat) :=
  let st := l.foldl
    (fun (st : List (Nat × Nat × Nat) × (Nat × Nat × Nat)) x =>
      if st.2.1 + st.2.2.2 = x.1 ∧ st.2.2.1 + st.2.2.2 = x.2.1 then
        (st.1, (st.2.1, st.2.2.1, st.2.2.2 + x.2.2))
      else if st.2.2.2 = 0 then (st.1, x)
      else (st.1 ++ [st.2], x))
    ([], (0, 0, 0))
  if st.2.2.2 = 0 then st.1 else st.1 ++ [st.2]

/-- Insert x after every already-placed element that is `le` it. -/
def insSorted {α : Type} (le : α → α → Bool) (x : α) : List α → List α
  | [] => [x]
  | y :: ys => if le y x then y :: insSorted le x ys else x :: y :: ys

/-- Stable ascending sort by the total preorder `le` (insertion sort).  Any
two stable sorts under the same total preorder produce the same list, so
this is exactly Python's list.sort / sorted. -/
def pySort {α : Type} (le : α → α → Bool) (l : List α) : List α :=
  l.foldl (fun acc x => insSorted le x acc) []

/-- difflib SequenceMatcher(None, a, b).get_matching_blocks(), including the
terminal (len(a), len(b), 0) sentinel. -/
def matchingBlocks (a b : List Nat) : List (Nat × Nat × Nat) :=
  let raw := mbLoop a b (a.length + b.length + 2) [(0, a.length, 0, b.length)] []
  collapseBlocks (pySort blockLe raw) ++ [(a.length, b.length, 0)]

/-- difflib SequenceMatcher.ratio(): 2M / T, as an exact rational (difflib
_calculate_ratio, with the T = 0 case giving 1.0). -/
def smRatioQ (a b : List Nat) : ℚ :=
  let m : Nat := ((matchingBlocks a b).map (fun x => x.2.2)).sum
  if a.length + b.length = 0 then 1 else (2 * m : ℚ) / ((a.length : ℚ) + (b.length : ℚ))

/-!
### fuzzywuzzy scorers (fuzz.py / utils.py, version 0.18.0)
-/

/-- Python round() — banker's rounding, ties to even. -/
def pyRound (q : ℚ) : ℤ :=
  let f := ⌊q⌋
  let r := q - (f : ℚ)
  if r < 1 / 2 then f
  else if 1 / 2 < r then f + 1
  else if f % 2 = 0 then f else f + 1

/-- fuzzywuzzy utils.intr: int(round(x)). -/
def intr (q : ℚ) : ℤ := pyRound q

/-- fuzzywuzzy utils.asciidammit on str input: the translation table deletes
exactly chr(128)..chr(255); higher code points pass through. -/
def asciiDammit (l : List Nat) : List Nat := l.filter (fun c => !(128 ≤ c && c ≤ 255))

/-- Regex word class `\w` of StringProcessor: ASCII letters, digits and
underscore.  (Unicode word characters above 255 are not modeled; every
string reaching the scorers from _fuzzy_match is an ASCII normalization.) -/
def isWordRe (c : Nat) : Bool := isWordChar c || c == 95

/-- fuzzywuzzy utils.full_process with force_ascii=True: asciidammit, replace
`\W` by spaces, lower-case, strip. -/
def fullProcess (l : List Nat) : List Nat :=
  pyStrip (((asciiDammit l).map (fun c => if isWordRe c then c else 32)).map pyLower)

/-- fuzz.ratio with its decorators: equal strings short-circuit to 100
(check_for_equivalence), then an empty string to 0 (check_empty_string). -/
def fuzzRatioZ (s1 s2 : List Nat) : ℤ :=
  if s1 = s2 then 100
  else if s1.length = 0 ∨ s2.length = 0 then 0
  else intr (100 * smRatioQ s1 s2)

/-- fuzz.partial_ratio (same decorators as fuzz.ratio): best SequenceMatcher
ratio of the shorter string against the length-aligned window of the longer
string at each matching block.  Python returns 100 at the first window whose
raw ratio exceeds .995 and otherwise the rounded maximum of all windows;
both are expressed below order-independently, which is equivalent because
the early return can only ever produce 100. -/
def partialRatioZ (s1 s2 : List Nat) : ℤ :=
  if s1 = s2 then 100
  else if s1.length = 0 ∨ s2.length = 0 then 0
  else
    let shorter := if s1.length ≤ s2.length then s1 else s2
    let longer := if s1.length ≤ s2.length then s2 else s1
    let blocks := matchingBlocks shorter longer
    let scoreOf : Nat × Nat × Nat → ℚ := fun bl =>
      let longStart := if bl.1 < bl.2.1 then bl.2.1 - bl.1 else 0
      smRatioQ shorter ((longer.drop longStart).take shorter.length)
    if blocks.any (fun bl => decide (995 / 1000 < scoreOf bl)) then 100
    else intr (100 * ((blocks.map scoreOf).foldl max 0))

/-- Lexicographic code-point order on strings (Python sorted on str). -/
def lexLe : List Nat → List Nat → Bool
  | [], _ => true
  | _ :: _, [] => false
  | x :: xs, y :: ys => if x < y then true else if y < x then false else lexLe xs ys

/-- Python sorted() on a list of strings. -/
def sortStrs (l : List (List Nat)) : List (List Nat) := pySort lexLe l

/-- Python set(): deduplicate, keeping one representative per element.  The
sets built by _token_set in fuzz.py are always immediately sorted, so the
iteration order of the Python set is irrelevant. -/
def pyUniq (l : List (List Nat)) : List (List Nat) :=
  l.foldl (fun acc t => if t ∈ acc then acc else acc ++ [t]) []

/-- fuzz._process_and_sort: optional full_process, split, sort tokens,
re-join, strip. -/
def processAndSort (fullProc : Bool) (s : List Nat) : List Nat :=
  let ts := if fullProc then fullProcess s else s
  pyStrip (joinSp (sortStrs (pySplitWs ts)))

/-- fuzz._token_sort (token_sort_ratio / partial_token_sort_ratio). -/
def tokenSortZ (partialFlag fullProc : Bool) (s1 s2 : List Nat) : ℤ :=
  let a := processAndSort fullProc s1
  let b := processAndSort fullProc s2
  if partialFlag then partialRatioZ a b else fuzzRatioZ a b

/-- fuzz._token_set (token_set_ratio / partial_token_set_ratio): compare
<sorted intersection> against <sorted intersection + sorted remainder>. -/
def tokenSetZ (partialFlag fullProc : Bool) (s1 s2 : List Nat) : ℤ :=
  if ¬ fullProc ∧ s1 = s2 then 100
  else
    let p1 := if fullProc then fullProcess s1 else s1
    let p2 := if fullProc then fullProcess s2 else s2
    if p1.length = 0 ∨ p2.length = 0 then 0
    else
      let t1 := pyUniq (pySplitWs p1)
      let t2 := pyUniq (pySplitWs p2)
      let inter := sortStrs (t1.filter (fun t => decide (t ∈ t2)))
      let d12 := sortStrs (t1.filter (fun t => decide (t ∉ t2)))
      let d21 := sortStrs (t2.filter (fun t => decide (t ∉ t1)))
      let sortedSect := joinSp inter
      let combined12 := pyStrip (sortedSect ++ 32 :: joinSp d12)
      let combined21 := pyStrip (sortedSect ++ 32 :: joinSp d21)
      let s0 := pyStrip sortedSect
      let rf : List Nat → List Nat → ℤ := if partialFlag then partialRatioZ else fuzzRatioZ
      max (max (rf s0 combined12) (rf s0 combined21)) (rf combined12 combined21)

/-- fuzz.WRatio (force_ascii=True, full_process=True): the weighted
combination scorer used by utils._combined. -/
def wratioZ (s1 s2 : List Nat) : ℤ :=
  let p1 := fullProcess s1
  let p2 := fullProcess s2
  if p1.length = 0 ∨ p2.length = 0 then 0
  else
    let base : ℚ := (fuzzRatioZ p1 p2 : ℚ)
    let lenR : ℚ := ((max p1.length p2.length : Nat) : ℚ) / ((min p1.length p2.length : Nat) : ℚ)
    let partialScale : ℚ := if 8 < lenR then 6 / 10 else 9 / 10
    if lenR < 3 / 2 then
      let tsor : ℚ := (tokenSortZ false false p1 p2 : ℚ) * (95 / 100)
      let tser : ℚ := (tokenSetZ false false p1 p2 : ℚ) * (95 / 100)
      intr (max base (max tsor tser))
    else
      let pr : ℚ := (partialRatioZ p1 p2 : ℚ) * partialScale
      let ptsor : ℚ := (tokenSortZ true false p1 p2 : ℚ) * (95 / 100) * partialScale
      let ptser : ℚ := (tokenSetZ true false p1 p2 : ℚ) * (95 / 100) * partialScale
      intr (max (max base pr) (max ptsor ptser))

/-!
### utils._fuzzy_match
-/

/-- utils._combined: 0.45 * WRatio + 0.45 * token_set_ratio +
0.10 * partial_ratio, as an exact rational. -/
def _combined (q cand : List Nat) : ℚ :=
  (45 / 100) * (wratioZ q cand : ℚ) + (45 / 100) * (tokenSetZ false true q cand : ℚ)
    + (10 / 100) * (partialRatioZ q cand : ℚ)

/-- utils._len_ratio.  `float("inf")` (returned when a length is zero) is
modeled by 10^9: it is only ever compared against 3.0, and the zero-length
case is unreachable from _fuzzy_match, which filters empty strings first. -/
def _len_ratioQ (a b : List Nat) : ℚ :=
  if a.length = 0 ∨ b.length = 0 then 10 ^ 9
  else ((max a.length b.length : Nat) : ℚ) / ((min a.length b.length : Nat) : ℚ)

/-- utils._short: names of at most 3 characters are risky. -/
def _short (s : List Nat) : Bool := s.length ≤ 3

/-- Nonempty intersection of token sets (`q_tokens & cand_tokens`). -/
def tokensOverlap (a b : List (List Nat)) : Bool := a.any (fun t => b.contains t)

/-- Token-set inclusion (`q_tokens <= cand_tokens`). -/
def tokensSubset (a b : List (List Nat)) : Bool := a.all (fun t => b.contains t)

/-- The pre-filter loop of _fuzzy_match (`for i, cand in enumerate(names)`):
keep (i, cand, _norm(cand)) when the normalization is nonempty, shares a
token with the query, and either is a token superset of the query or has
length ratio at most 3. -/
def prelimOf (qtok : List (List Nat)) (qn : List Nat) :
    Nat → List (List Nat) → List (Nat × List Nat × List Nat)
  | _, [] => []
  | i, cand :: rest =>
    let cn := _norm cand
    let keep :=
      cn ≠ [] ∧ tokensOverlap qtok (_token_set cn) = true ∧
        (tokensSubset qtok (_token_set cn) = true ∨ ¬ _len_ratioQ qn cn > 3)
    (if keep then [(i, cand, cn)] else []) ++ prelimOf qtok qn (i + 1) rest

/-- utils._fuzzy_match: return an ingredient id on a safe fuzzy match, else
none.  Python's stable descending sort on the scored list followed by taking
the first element is mergeSort with the "greater or equal" comparator. -/
def _fuzzy_match (name : List Nat) (names : List (List Nat)) (ids : List Nat)
    (cutoff : ℤ) : Option Nat :=
  if names = [] then none
  else
    let qn := _norm name
    if qn = [] then none
    else
      let qtok := _token_set qn
      let prelim := prelimOf qtok qn 0 names
      if prelim = [] then none
      else
        match prelim.filter (fun e => tokensSubset qtok (_token_set e.2.2)) with
        | e0 :: rest =>
          let best := (e0 :: rest).foldl
            (fun (acc : Nat × ℚ) e =>
              let s := _combined qn e.2.2
              if acc.2 < s then (e.1, s) else acc)
            (e0.1, -1)
          some (ids.getD best.1 0)
        | [] =>
          let scored := prelim.map (fun e => (_combined qn e.2.2, e.1, e.2.1, e.2.2))
          match pySort (fun x y => decide (y.1 ≤ x.1)) scored with
          | [] => none
          | best :: _ =>
            if _short best.2.2.2 = true ∧ best.1 < 98 then none
            else if (cutoff : ℚ) ≤ best.1 then some (ids.getD best.2.1 0)
            else none

/-!
### Heuristic extractors (agents/coordinator.py)
-/

/-- First index at which `n` occurs as a contiguous substring of `h`
(Python str.find, as an Option instead of -1). -/
def strFind (h n : List Nat) : Option Nat :=
  (List.range (h.length + 1)).find? (fun i => (h.drop i).take n.length == n)

/-- Python `n in h` on strings. -/
def strContains (h n : List Nat) : Bool := (strFind h n).isSome

/-- Candidate readings of the leading `(\d+(?:\.\d+)?)` of the quantity
regex, in the Python engine's backtracking preference order: longest digit
run first and, for each, the fractional part (itself longest first) before
its absence.  Each candidate is (group 1 text, remaining input). -/
def numberCandidates (l : List Nat) : List (List Nat × List Nat) :=
  let digits := l.takeWhile isDigitChar
  (List.range digits.length).flatMap (fun d =>
    let n := digits.length - d
    let intPart := l.take n
    let rest := l.drop n
    let fracs :=
      match rest with
      | 46 :: rest2 =>
        let fdig := rest2.takeWhile isDigitChar
        (List.range fdig.length).map (fun fd =>
          let fn := fdig.length - fd
          (intPart ++ 46 :: rest2.take fn, rest2.drop fn))
      | _ => []
    fracs ++ [(intPart, rest)])

/-- Regex `\b` between the last consumed character and the rest of the
input: exactly one side is a word character (end of input is non-word). -/
def boundaryOk (last : Nat) (rest : List Nat) : Bool :=
  match rest with
  | [] => isWordRe last
  | c :: _ => isWordRe last != isWordRe c

/-- The `(g|grams)?\b` tail of the quantity regex at a given point: try
"g", then "grams", then the empty option (each followed by the boundary
check); only success or failure matters here, since group 1 is fixed. -/
def unitBoundary (lastPrev : Nat) (rest : List Nat) : Bool :=
  match rest with
  | 103 :: rest3 =>
    boundaryOk 103 rest3 ||
      (match rest3 with
       | 114 :: 97 :: 109 :: 115 :: rest4 => boundaryOk 115 rest4
       | _ => false) ||
      boundaryOk lastPrev (103 :: rest3)
  | _ => boundaryOk lastPrev rest

/-- One anchored attempt of `(\d+(?:\.\d+)?)\s*(g|grams)?\b` at the start of
`l`, with full backtracking over the number, the greedy `\s*` (longest
first) and the unit alternation; returns group 1 on success. -/
def matchNumberHere (l : List Nat) : Option (List Nat) :=
  (numberCandidates l).findSome? (fun cand =>
    let g1 := cand.1
    let rest1 := cand.2
    let sp := rest1.takeWhile isSpaceChar
    (List.range (sp.length + 1)).findSome? (fun d =>
      let k := sp.length - d
      let last := if k = 0 then g1.getLastD 0 else (rest1.take k).getLastD 0
      if unitBoundary last (rest1.drop k) then some g1 else none))

/-- re.search: leftmost starting position wins. -/
def reSearchNumber : List Nat → Option (List Nat)
  | [] => none
  | c :: rest =>
    match matchNumberHere (c :: rest) with
    | some g => some g
    | none => reSearchNumber rest

/-- Numeric value of a run of ASCII digits. -/
def digitsToNat (l : List Nat) : Nat := l.foldl (fun a c => 10 * a + (c - 48)) 0

/-- Python float() of a `\d+(\.\d+)?` string, as an exact rational. -/
def decToQ (g : List Nat) : ℚ :=
  let ip := g.takeWhile (fun c => c != 46)
  let fp := (g.dropWhile (fun c => c != 46)).drop 1
  (digitsToNat ip : ℚ) + (digitsToNat fp : ℚ) / (10 : ℚ) ^ fp.length

/-- CoordinatorAgent._extract_grams: strip and lower the input, search for
the first match of `(\d+(?:\.\d+)?)\s*(g|grams)?\b`, and parse group 1. -/
def _extract_grams (text : List Nat) : Option ℚ :=
  if text = [] then none
  else
    let s := (pyStrip text).map pyLower
    (reSearchNumber s).map decToQ

/-- Left-pad with ASCII zeros to width w. -/
def padZeros (w : Nat) (l : List Nat) : List Nat := List.replicate (w - l.length) 48 ++ l

/-- Python str() / repr of a float inside an f-string, modeled for values
with a short terminating decimal expansion (every gram amount in scope):
repr prints the shortest round-tripping decimal, which for such values is
exactly the minimal decimal expansion, with ".0" appended to integers. -/
def pyFloatStr (q : ℚ) : List Nat :=
  let sign : List Nat := if q < 0 then [45] else []
  let a : ℚ := |q|
  if a.den = 1 then sign ++ codes (toString a.num.toNat) ++ [46, 48]
  else
    match (List.range 40).find? (fun k => (a * (10 : ℚ) ^ (k + 1)).den = 1) with
    | some k =>
      let ip := (⌊a⌋).toNat
      let fracNat := ((a - (ip : ℚ)) * (10 : ℚ) ^ (k + 1)).num.toNat
      sign ++ codes (toString ip) ++ [46] ++ padZeros (k + 1) (codes (toString fracNat))
    | none => sign ++ codes (toString a.num) ++ [47] ++ codes (toString a.den)

/-!
### Conversation log and clarification state (agents/base.py, coordinator.py)
-/

/-- The metadata dict of a chat message, restricted to the keys this core
reads and writes.  A `none` field models an absent key. -/
structure Meta where
  category : Option (List Nat)
  mtype : Option (List Nat)
  clarifying_about : Option (List Nat)
  clarifying_item : Option (List Nat)
  has_image : Option Bool
deriving DecidableEq

/-- Metadata carrying only a category key. -/
def metaCat (c : List Nat) : Meta := ⟨some c, none, none, none, none⟩

/-- The coordinator's clarification metadata
{"type": "coordinator", "category": "clarification", ...}. -/
def metaCoordClar (about item : Option (List Nat)) : Meta :=
  ⟨some (codes "clarification"), some (codes "coordinator"), about, item, none⟩

/-- One message of the conversation log (base.ChatMessage as stored and
reloaded: role, content, category tag, optional metadata).  The stored
metadata dict is never empty (save_chat_message stores None instead), so
Python's truthiness test on it is `Option.isSome` here. -/
structure Msg where
  role : List Nat
  content : List Nat
  category : Option (List Nat)
  meta : Option Meta
deriving DecidableEq

/-- get_chat_history(user_id, limit=50): the most recent 50 messages in
chronological order. -/
def historyWindow (log : List Msg) : List Msg := (log.reverse.take 50).reverse

/-- CoordinatorAgent._last_clarification_about, scanning the reversed log:
the most recent assistant message tagged clarification decides the result;
the nearest user message before it is the prior user text.  Python's
`(None, None, None)` / `msg.metadata or {}` results are both modeled by
`none` (an empty dict is falsy at every use site, like None). -/
def lcaRev : List Msg → Option (List Nat) × Option (List Nat) × Option Meta
  | [] => (none, none, none)
  | m :: earlier =>
    if m.role = codes "assistant" ∧ m.category = some (codes "clarification") then
      let about :=
        match m.meta with
        | some md => md.clarifying_about
        | none => none
      (about, (earlier.find? (fun mm => mm.role == codes "user")).map (fun mm => mm.content),
        m.meta)
    else lcaRev earlier

/-- CoordinatorAgent._last_clarification_about on a chronological history. -/
def _last_clarification_about (history : List Msg) :
    Option (List Nat) × Option (List Nat) × Option Meta :=
  lcaRev history.reverse

/-- The fixed literal set of CoordinatorAgent._is_negative_reply. -/
def negativeSet : List (List Nat) :=
  [codes "no", codes "nope", codes "nah", codes "nothing else", codes "just that",
   codes "that" ++ [39] ++ codes "s it", codes "only"]

/-- CoordinatorAgent._is_negative_reply: exact membership of the stripped,
lower-cased text. -/
def _is_negative_reply (text : List Nat) : Bool :=
  negativeSet.contains ((pyStrip text).map pyLower)

/-- The consumption-verb keys of _extract_item_from_text, in source order. -/
def mealKeys : List (List Nat) :=
  [codes "i had ", codes "i ate ", codes "had ", codes "ate "]

/-- Minimum of the found positions of the present keys (`min(...,
default=-1)` as an Option). -/
def minKeyPos (s : List Nat) (keys : List (List Nat)) : Option Nat :=
  ((keys.filter (fun k => strContains s k)).map (fun k => (strFind s k).getD 0)).min?

/-- The key whose found position equals p (`next(k for k in keys if
s.find(k) == pos)`; absent keys find -1 and can never qualify). -/
def keyAt (s : List Nat) (keys : List (List Nat)) (p : Nat) : Option (List Nat) :=
  keys.find? (fun k => strFind s k == some p)

/-- The clause-boundary markers of _extract_item_from_text, in source order. -/
def cutList : List (List Nat) :=
  [codes " with ", codes " and ", codes ",", codes ";", codes " for ", codes ". "]

/-- CoordinatorAgent._extract_item_from_text: take the text after the
earliest consumption verb (retrying on the clause after a comma when no verb
is found directly), truncate at clause boundaries, keep the first four
alphabetic tokens. -/
def _extract_item_from_text (text : List Nat) : Option (List Nat) :=
  if text = [] then none
  else
    let raw := pyStrip text
    let s := raw.map pyLower
    let frag :=
      match minKeyPos s mealKeys with
      | some p =>
        match keyAt s mealKeys p with
        | some k => raw.drop (p + k.length)
        | none => raw
      | none =>
        if strContains s [44] then
          let left := raw.takeWhile (fun c => c != 44)
          let right := raw.drop (left.length + 1)
          if mealKeys.any (fun k => strContains (right.map pyLower) k) then
            let s2 := right.map pyLower
            match minKeyPos s2 mealKeys with
            | some p2 =>
              match keyAt s2 mealKeys p2 with
              | some k => right.drop (p2 + k.length)
              | none => right
            | none => right
          else right
        else raw
    let frag2 := cutList.foldl
      (fun f cut =>
        match strFind (f.map pyLower) cut with
        | some idx => f.take idx
        | none => f)
      frag
    let toks := (pySplitWs (pyStrip frag2)).filter (fun t => t.all isAlphaChar)
    match toks with
    | [] => none
    | _ => some (joinSp (toks.take 4))

/-- Bare greetings skipped by _find_recent_meal_item. -/
def greetSet : List (List Nat) :=
  [codes "hi", codes "hello", codes "hey", codes "yo", codes "sup"]

/-- The meal cues of _find_recent_meal_item, in source order. -/
def mealCues : List (List Nat) :=
  [codes "i had ", codes "had ", codes "i ate ", codes "ate ",
   codes "breakfast", codes "lunch", codes "dinner"]

/-- The scan of _find_recent_meal_item over the reversed log: the first
non-greeting user message with a meal cue whose extraction yields a
(nonempty) item wins; otherwise the scan continues. -/
def frmiRev : List Msg → Option (List Nat)
  | [] => none
  | m :: earlier =>
    if m.role = codes "user" then
      let text := m.content.map pyLower
      if greetSet.contains (pyStrip text) then frmiRev earlier
      else if mealCues.any (fun k => strContains text k) then
        match _extract_item_from_text m.content with
        | some item => if item = [] then frmiRev earlier else some item
        | none => frmiRev earlier
      else frmiRev earlier
    else frmiRev earlier

/-- CoordinatorAgent._find_recent_meal_item on a chronological history. -/
def _find_recent_meal_item (history : List Msg) : Option (List Nat) :=
  frmiRev history.reverse

/-!
### The router (CoordinatorAgent.classify_and_respond / process)

The OpenAI classifier call is a collaborator: its outcome for the given
input and history is a parameter (`Except` error for a raised exception,
and the parsed JSON fields otherwise).  HTML response bodies are out of the
spec's scope (§1, "HTML/response rendering"); they are modeled as tagged
code-point lists that no modeled component ever re-parses.
-/

/-- The parsed JSON object returned by the classifier collaborator:
`category` is `result.get("category", ...)` (none models an absent key),
`responseText`/`follow_up` the other two fields. -/
structure ClassifierOut where
  category : Option (List Nat)
  responseText : List Nat
  follow_up : Option (List Nat)
deriving DecidableEq

/-- CoordinatorAgent.CATEGORIES. -/
def CATEGORIES : List (List Nat) :=
  [codes "analyze_meal", codes "coaching", codes "web_search",
   codes "recipe_generation", codes "conversation", codes "clarification"]

/-- CoordinatorAgent.classify_and_respond: an image short-circuits to
analyze_meal; a raised classifier error falls back to conversation; an
answered category absent from CATEGORIES is replaced by conversation.
Returns (category, response html). -/
def classify_and_respond (res : Except Unit ClassifierOut) (hasImage : Bool) :
    List Nat × List Nat :=
  if hasImage then (codes "analyze_meal", codes "IMAGE_ACK")
  else
    match res with
    | .error _ => (codes "conversation", codes "CLASSIFIER_ERROR_FALLBACK")
    | .ok out =>
      let category := out.category.getD (codes "conversation")
      let html := out.responseText ++ out.follow_up.getD []
      if category ∈ CATEGORIES then (category, html)
      else (codes "conversation", html)

/-- Python string truthiness of an optional string (`None` and `""` are
falsy). -/
def optTruthy (a : Option (List Nat)) : Bool :=
  match a with
  | some s => !(s == [])
  | none => false

/-- Python `a or b` for an optional string a and a fallback. -/
def pyOrStr (a : Option (List Nat)) (b : List Nat) : List Nat :=
  match a with
  | some s => if s = [] then b else s
  | none => b

/-- The `last_item = last_meta.get("clarifying_item") if last_meta ...`
pattern of CoordinatorAgent.process. -/
def metaItem (m : Option Meta) : Option (List Nat) :=
  match m with
  | some md => md.clarifying_item
  | none => none

/-- The `grams is not None and grams > 0` guard of CoordinatorAgent.process. -/
def gramsPos (g : Option ℚ) : Bool :=
  match g with
  | some v => decide (0 < v)
  | none => false

/-- The outcome of one CoordinatorAgent.process call: the resolved category,
the (possibly rewritten) outgoing user input, the stored coordinator
response (for routed categories), the direct reply html (for directly
handled categories), and the messages appended to the log. -/
structure CoordResult where
  category : Option (List Nat)
  user_input : List Nat
  coordinator_response : Option (List Nat)
  responseHtml : Option (List Nat)
  appended : List Msg
deriving DecidableEq

/-- CoordinatorAgent.process.  Transitions in source order: (1) negative
reply to an open meal-logging clarification; (2) quantity answer to an open
meal-logging clarification, rewriting the outgoing input to
"{item} {grams} g"; (3) negative reply with a recent meal mention and no
open clarification; (4) quantity with a recent meal mention and no open
clarification; (5) classifier fallback. -/
def coordinator_process (res : Except Unit ClassifierOut) (userInput : List Nat)
    (hasImage : Bool) (log : List Msg) : CoordResult :=
  let history := historyWindow log
  let lca := _last_clarification_about history
  let about := lca.1
  let lastMeta := lca.2.2
  let lastItem : Option (List Nat) := metaItem lastMeta
  let grams := _extract_grams userInput
  let gOk : Bool := gramsPos grams
  if about = some (codes "meal_logging") ∧ _is_negative_reply userInput = true then
    let item := pyOrStr lastItem (pyOrStr (_find_recent_meal_item history) (codes "that"))
    let html := codes "ASK_GRAMS:" ++ item
    ⟨some (codes "clarification"), userInput, none, some html,
      [⟨codes "user", userInput, some (codes "clarification"),
         some (metaCat (codes "clarification"))⟩,
       ⟨codes "assistant", html, some (codes "clarification"),
         some (metaCoordClar (some (codes "meal_logging")) (some item))⟩]⟩
  else if about = some (codes "meal_logging") ∧ gOk = true then
    let item := pyOrStr lastItem (pyOrStr (_find_recent_meal_item history) (codes "item"))
    let canonical := item ++ [32] ++ pyFloatStr (grams.getD 0) ++ [32, 103]
    ⟨some (codes "analyze_meal"), canonical, some (codes "ACK_LOG:" ++ canonical), none,
      [⟨codes "user", userInput, some (codes "analyze_meal"),
         some (metaCat (codes "analyze_meal"))⟩]⟩
  else if about = none ∧ _is_negative_reply userInput = true ∧
      optTruthy (_find_recent_meal_item history) = true then
    let item := (_find_recent_meal_item history).getD []
    let html := codes "ASK_GRAMS:" ++ item
    ⟨some (codes "clarification"), userInput, none, some html,
      [⟨codes "user", userInput, some (codes "clarification"),
         some (metaCat (codes "clarification"))⟩,
       ⟨codes "assistant", html, some (codes "clarification"),
         some (metaCoordClar (some (codes "meal_logging")) (some item))⟩]⟩
  else if about = none ∧ gOk = true ∧
      optTruthy (_find_recent_meal_item history) = true then
    let item := (_find_recent_meal_item history).getD []
    let canonical := item ++ [32] ++ pyFloatStr (grams.getD 0) ++ [32, 103]
    ⟨some (codes "analyze_meal"), canonical, some (codes "ACK_LOG:" ++ canonical), none,
      [⟨codes "user", userInput, some (codes "analyze_meal"),
         some (metaCat (codes "analyze_meal"))⟩]⟩
  else
    let cr := classify_and_respond res hasImage
    let category := cr.1
    let userMsg : Msg := ⟨codes "user", userInput, some category, some (metaCat category)⟩
    if category ∈ [codes "conversation", codes "clarification"] then
      let lowerIn := userInput.map pyLower
      let md : Meta :=
        if category = codes "clarification" then
          if [codes "breakfast", codes "lunch", codes "dinner", codes "ate", codes "had",
              codes "i had", codes "i ate"].any (fun k => strContains lowerIn k) then
            ⟨some category, some (codes "coordinator"), some (codes "meal_logging"),
              _extract_item_from_text userInput, none⟩
          else if [codes "recipe", codes "cook", codes "make"].any
              (fun k => strContains lowerIn k) then
            ⟨some category, some (codes "coordinator"), some (codes "recipe"), none, none⟩
          else if [codes "advice", codes "healthy", codes "diet"].any
              (fun k => strContains lowerIn k) then
            ⟨some category, some (codes "coordinator"), some (codes "coaching"), none, none⟩
          else ⟨some category, some (codes "coordinator"), none, none, none⟩
        else ⟨some category, some (codes "coordinator"), none, none, none⟩
      ⟨some category, userInput, none, some cr.2,
        [userMsg, ⟨codes "assistant", cr.2, some category, some md⟩]⟩
    else
      ⟨some category, userInput, some cr.2, none, [userMsg]⟩

/-!
### The meal analyzer (agents/analyzer.py)
-/

/-- A validated nutrition card: the per_100g macro profile after
create_nutrition_card has checked all four fields (the float() re-parse of
a validated card in create_new_ingredients cannot fail in this model, whose
card values are already numbers). -/
structure Card where
  calories : ℚ
  protein : ℚ
  carbs : ℚ
  fat : ℚ
deriving DecidableEq

/-- A catalog row (models.Ingredient as the resolution engine uses it). -/
structure Ing where
  id : Nat
  name : List Nat
  calories : ℚ
  protein : ℚ
  carbs : ℚ
  fat : ℚ
  unit_weight : ℚ
deriving DecidableEq

/-- The ingredient catalog: its rows plus the id the next flush assigns. -/
structure Catalog where
  rows : List Ing
  nextId : Nat
deriving DecidableEq

/-- SQL lower() / Python str.lower() on a name. -/
def lowerName (r : List Nat) : List Nat := r.map pyLower

/-- Python dict assignment d[k] = v on an insertion-ordered dict. -/
def pyDictSet {α β : Type} [DecidableEq α] (m : List (α × β)) (k : α) (v : β) :
    List (α × β) :=
  if m.any (fun kv => decide (kv.1 = k)) then
    m.map (fun kv => if kv.1 = k then (k, v) else kv)
  else m ++ [(k, v)]

/-- The card-gathering loop of create_new_ingredients: one generator
(create_nutrition_card) call per element of unknown_names, keeping the
returned cards in a dict keyed by the raw name.  `gen` is the external
NutritionGenerator collaborator (none = failed or invalid card); the second
component is the chronological log of the names it was called with. -/
def newCardsLoop (gen : List Nat → Option Card) (names : List (List Nat)) :
    List (List Nat × Card) × List (List Nat) :=
  names.foldl
    (fun (st : List (List Nat × Card) × List (List Nat)) name =>
      match gen name with
      | some card => (pyDictSet st.1 name card, st.2 ++ [name])
      | none => (st.1, st.2 ++ [name]))
    ([], [])

/-- The transactional insert loop of create_new_ingredients, acting on the
pending (uncommitted) catalog state: for each card, re-check the catalog
case-insensitively by exact name; reuse the id if found, otherwise insert a
new row at unit_weight 100 and flush.  `flushOk k` injects a database
failure at the k-th flush (the surrounding try re-raises after rollback). -/
def createLoop (flushOk : Nat → Bool) :
    List (List Nat × Card) → Catalog → List (List Nat × Nat) → Nat →
    Except Unit (Catalog × List (List Nat × Nat))
  | [], pend, ids, _ => .ok (pend, ids)
  | (uname, card) :: rest, pend, ids, k =>
    let key := _norm uname
    match pend.rows.find? (fun r => lowerName r.name == lowerName uname) with
    | some r => createLoop flushOk rest pend (pyDictSet ids key r.id) k
    | none =>
      if flushOk k then
        createLoop flushOk rest
          ⟨pend.rows ++ [⟨pend.nextId, uname, card.calories, card.protein, card.carbs,
            card.fat, 100⟩], pend.nextId + 1⟩
          (pyDictSet ids key pend.nextId) (k + 1)
      else .error ()

/-- AnalyzerAgent.create_new_ingredients: gather cards, then insert them in
one transaction; commit once for the batch (`commitOk` injects a commit
failure); on any failure roll back (the committed catalog reverts to `cat`)
and re-raise (`Except.error`).  Returns (created_ids or the propagated
error, the committed catalog afterwards, the generator call log). -/
def create_new_ingredients (gen : List Nat → Option Card) (flushOk : Nat → Bool)
    (commitOk : Bool) (unknown_names : List (List Nat)) (cat : Catalog) :
    Except Unit (List (List Nat × Nat)) × Catalog × List (List Nat) :=
  let nc := newCardsLoop gen unknown_names
  match createLoop flushOk nc.1 cat [] 0 with
  | .error _ => (.error (), cat, nc.2)
  | .ok pr => if commitOk then (.ok pr.2, pr.1, nc.2) else (.error (), cat, nc.2)

/-- The chat-log appends of AnalyzerAgent.process: the incoming user message
is saved first, unconditionally; the assistant summary is saved at the end,
which is not reached when create_new_ingredients raises (`creationFails`).
All other behavior of process (parsing, side panel, response items) appends
nothing to the log. -/
def analyzer_appends (creationFails hasImage : Bool) (userInput : List Nat) : List Msg :=
  ⟨codes "user", userInput, some (codes "analyze_meal"),
    some ⟨some (codes "analyze_meal"), none, none, none, some hasImage⟩⟩ ::
    (if creationFails then []
     else [⟨codes "assistant", codes "ANALYSIS_SUMMARY", some (codes "analyze_meal"),
       some ⟨none, some (codes "analyze_meal"), none, none, none⟩⟩])

/-- The chat-log appends of RecipeGenerationAgent.process: the incoming user
message is saved up front — the code notes the conversation agent will not
save it because an assistant_response is passed on through state instead of
being saved by this handler — so a recipe turn gets exactly one user-role
append from this handler and none with assistant role. -/
def recipe_appends (userInput : List Nat) : List Msg :=
  [⟨codes "user", userInput, some (codes "recipe_generation"),
    some (metaCat (codes "recipe_generation"))⟩]

/-- The chat-log appends of WebSearchAgent.process: a single assistant-role
message carrying the formatted response; its nutrition_data metadata payload
is irrelevant to role counts and abstracted as `m`.  No user-role save. -/
def webSearch_appends (responseHtml : List Nat) (m : Option Meta) : List Msg :=
  [⟨codes "assistant", responseHtml, none, m⟩]

/-- The chat-log appends of CoachingAgent.process: none — it only fills the
response and coaching data in the state. -/
def coaching_appends : List Msg := []

/-- One turn of the workflow (workflow.route_after_coordinator):
CoordinatorAgent.process, then the downstream handler of the resolved
category — AnalyzerAgent.process for analyze_meal (with the coordinator's
possibly rewritten user_input), RecipeGenerationAgent.process for
recipe_generation, WebSearchAgent.process for web_search, and
CoachingAgent.process for coaching.  conversation/clarification turns are
handled inside the coordinator and routed to the pass-through
in_conversation node, which appends nothing.  Returns the coordinator
result and all messages the turn appended. -/
def turn (res : Except Unit ClassifierOut) (userInput : List Nat) (hasImage : Bool)
    (log : List Msg) (creationFails : Bool) (searchHtml : List Nat)
    (searchMeta : Option Meta) : CoordResult × List Msg :=
  let c := coordinator_process res userInput hasImage log
  if c.category = some (codes "analyze_meal") then
    (c, c.appended ++ analyzer_appends creationFails hasImage c.user_input)
  else if c.category = some (codes "recipe_generation") then
    (c, c.appended ++ recipe_appends c.user_input)
  else if c.category = some (codes "web_search") then
    (c, c.appended ++ webSearch_appends searchHtml searchMeta)
  else if c.category = some (codes "coaching") then
    (c, c.appended ++ coaching_appends)
  else (c, c.appended)

/-- Number of user-role messages in a list of appends. -/
def userRoleCount (msgs : List Msg) : Nat :=
  (msgs.filter (fun m => m.role == codes "user")).length


/-!
## Theorems

The rational arithmetic of core Lean is sealed; re-opening it lets `decide`
evaluate the embedded scorers on concrete inputs.
-/

attribute [local semireducible] Rat.add Rat.mul Rat.inv Rat.sub

set_option maxRecDepth 100000

/-! ## Lemmas about the text normalizer -/

theorem pyLower_idem (c : Nat) : pyLower (pyLower c) = pyLower c := by
  simp only [pyLower]
  split_ifs <;> omega

theorem pyLower_fixed_of_mem_map {c : Nat} {l : List Nat} (h : c ∈ l.map pyLower) :
    pyLower c = c := by
  rcases List.mem_map.1 h with ⟨c0, _, rfl⟩
  exact pyLower_idem c0

theorem isWordChar_facts {c : Nat} (h : isWordChar c = true) :
    isSpaceChar c = false ∧ c ≠ 226 ∧ c ≠ 39 ∧ c ≤ 122 := by
  simp only [isWordChar, isDigitChar, isSpaceChar, Bool.or_eq_true, Bool.and_eq_true,
    decide_eq_true_eq, Bool.or_eq_false_iff, Bool.and_eq_false_iff, decide_eq_false_iff_not] at *
  omega

theorem takeWhile_all {p : Nat → Bool} : ∀ {t : List Nat}, (∀ c ∈ t, p c = true) →
    t.takeWhile p = t := by
  intro t
  induction t with
  | nil => intro; rfl
  | cons c rest ih =>
    intro h
    rw [List.takeWhile_cons_of_pos (h c (List.mem_cons_self c rest))]
    rw [ih (fun d hd => h d (List.mem_cons_of_mem c hd))]

theorem dropWhile_all {p : Nat → Bool} : ∀ {t : List Nat}, (∀ c ∈ t, p c = true) →
    t.dropWhile p = [] := by
  intro t
  induction t with
  | nil => intro; rfl
  | cons c rest ih =>
    intro h
    rw [List.dropWhile_cons_of_pos (h c (List.mem_cons_self c rest))]
    exact ih (fun d hd => h d (List.mem_cons_of_mem c hd))

theorem takeWhile_append_all {p : Nat → Bool} {t l : List Nat}
    (h : ∀ c ∈ t, p c = true) : (t ++ l).takeWhile p = t ++ l.takeWhile p := by
  induction t with
  | nil => simp
  | cons c rest ih =>
    rw [List.cons_append, List.takeWhile_cons_of_pos (h c (List.mem_cons_self c rest))]
    rw [ih (fun d hd => h d (List.mem_cons_of_mem c hd))]
    rfl

theorem dropWhile_append_all {p : Nat → Bool} {t l : List Nat}
    (h : ∀ c ∈ t, p c = true) : (t ++ l).dropWhile p = l.dropWhile p := by
  induction t with
  | nil => simp
  | cons c rest ih =>
    rw [List.cons_append, List.dropWhile_cons_of_pos (h c (List.mem_cons_self c rest))]
    exact ih (fun d hd => h d (List.mem_cons_of_mem c hd))

/-- Soundness of the run splitter: tokens are nonempty, satisfy p, and use
characters of the input. -/
theorem runSplitF_sound {p : Nat → Bool} : ∀ {fuel : Nat} {l t : List Nat},
    t ∈ runSplitF p fuel l → t ≠ [] ∧ ∀ c ∈ t, p c = true ∧ c ∈ l := by
  intro fuel
  induction fuel with
  | zero => intro l t h; simp [runSplitF] at h
  | succ f ih =>
    intro l t h
    match l with
    | [] => simp [runSplitF] at h
    | c :: rest =>
      by_cases hp : p c = true
      · rw [runSplitF, if_pos hp] at h
        rcases List.mem_cons.1 h with h1 | h2
        · subst h1
          refine ⟨by simp, ?_⟩
          intro d hd
          rcases List.mem_cons.1 hd with rfl | hd2
          · exact ⟨hp, List.mem_cons_self _ _⟩
          · refine ⟨List.mem_takeWhile_imp hd2, ?_⟩
            exact List.mem_cons_of_mem c (List.Sublist.mem hd2 (List.takeWhile_sublist p))
        · rcases ih h2 with ⟨hne, hall⟩
          refine ⟨hne, fun d hd => ⟨(hall d hd).1, ?_⟩⟩
          exact List.mem_cons_of_mem c (List.Sublist.mem (hall d hd).2 (List.dropWhile_sublist p))
      · rw [runSplitF, if_neg hp] at h
        rcases ih h with ⟨hne, hall⟩
        exact ⟨hne, fun d hd => ⟨(hall d hd).1, List.mem_cons_of_mem c (hall d hd).2⟩⟩

/-- A join of nonempty tokens is nonempty. -/
theorem joinSp_ne_nil : ∀ {ts : List (List Nat)}, ts ≠ [] → (∀ t ∈ ts, t ≠ []) →
    joinSp ts ≠ [] := by
  intro ts
  match ts with
  | [] => intro h; exact absurd rfl h
  | [t] =>
    intro _ h
    simpa [joinSp] using h t (List.mem_cons_self _ _)
  | t :: t2 :: rest =>
    intro _ h
    have ht : t ≠ [] := h t (List.mem_cons_self _ _)
    simp only [joinSp]
    intro hc
    rcases List.append_eq_nil.1 hc with ⟨h1, _⟩
    exact ht h1

/-- Characters of a join are the separator or token characters. -/
theorem mem_joinSp : ∀ {ts : List (List Nat)} {c : Nat}, c ∈ joinSp ts →
    c = 32 ∨ ∃ t ∈ ts, c ∈ t := by
  intro ts
  match ts with
  | [] => intro c h; simp [joinSp] at h
  | [t] =>
    intro c h
    right
    exact ⟨t, List.mem_cons_self _ _, by simpa [joinSp] using h⟩
  | t :: t2 :: rest =>
    intro c h
    simp only [joinSp] at h
    rcases List.mem_append.1 h with h1 | h2
    · exact Or.inr ⟨t, List.mem_cons_self _ _, h1⟩
    · rcases List.mem_cons.1 h2 with rfl | h3
      · exact Or.inl rfl
      · rcases mem_joinSp h3 with h4 | ⟨u, hu, hcu⟩
        · exact Or.inl h4
        · exact Or.inr ⟨u, List.mem_cons_of_mem _ hu, hcu⟩

/-- The head of a join of nonempty tokens satisfying p satisfies p. -/
theorem head?_joinSp {p : Nat → Bool} : ∀ {ts : List (List Nat)},
    (∀ t ∈ ts, t ≠ [] ∧ ∀ c ∈ t, p c = true) →
    ∀ c, (joinSp ts).head? = some c → p c = true := by
  intro ts
  match ts with
  | [] => intro _ c h; simp [joinSp] at h
  | [t] =>
    intro hall c h
    simp only [joinSp] at h
    exact (hall t (List.mem_cons_self _ _)).2 c (List.mem_of_mem_head? h)
  | t :: t2 :: rest =>
    intro hall c h
    simp only [joinSp] at h
    rcases hall t (List.mem_cons_self _ _) with ⟨hne, hp⟩
    match t, hne with
    | d :: t', _ =>
      simp only [List.cons_append, List.head?_cons, Option.some.injEq] at h
      subst h
      exact hp _ (List.mem_cons_self _ _)

/-- The last character of a join of nonempty tokens satisfying p satisfies p. -/
theorem getLast?_joinSp {p : Nat → Bool} : ∀ {ts : List (List Nat)},
    (∀ t ∈ ts, t ≠ [] ∧ ∀ c ∈ t, p c = true) →
    ∀ c, (joinSp ts).getLast? = some c → p c = true := by
  intro ts
  match ts with
  | [] => intro _ c h; simp [joinSp] at h
  | [t] =>
    intro hall c h
    simp only [joinSp] at h
    exact (hall t (List.mem_cons_self _ _)).2 c (List.mem_of_mem_getLast? h)
  | t :: t2 :: rest =>
    intro hall c h
    simp only [joinSp] at h
    have hj : joinSp (t2 :: rest) ≠ [] :=
      joinSp_ne_nil (by simp) (fun u hu => (hall u (List.mem_cons_of_mem _ hu)).1)
    rw [List.getLast?_append_cons] at h
    rw [show (32 :: joinSp (t2 :: rest)) = [32] ++ joinSp (t2 :: rest) from rfl,
      List.getLast?_append_of_ne_nil _ hj] at h
    exact getLast?_joinSp (fun u hu => hall u (List.mem_cons_of_mem _ hu)) c h

/-- Splitting a separator-joined list of nonempty p-tokens recovers the
tokens, for any fuel at least the joined length. -/
theorem runSplitF_join {p : Nat → Bool} (hsep : p 32 = false) :
    ∀ (ts : List (List Nat)) (fuel : Nat),
      (∀ t ∈ ts, t ≠ [] ∧ ∀ c ∈ t, p c = true) → (joinSp ts).length ≤ fuel →
      runSplitF p fuel (joinSp ts) = ts := by
  intro ts
  induction ts with
  | nil =>
    intro fuel _ _
    match fuel with
    | 0 => rfl
    | _ + 1 => rfl
  | cons t ts2 ih =>
    intro fuel hall hlen
    rcases hall t (List.mem_cons_self _ _) with ⟨hne, hp⟩
    match t, hne with
    | c :: t', _ =>
      have hpc : p c = true := hp c (List.mem_cons_self _ _)
      have hpt' : ∀ d ∈ t', p d = true := fun d hd => hp d (List.mem_cons_of_mem c hd)
      match ts2 with
      | [] =>
        simp only [joinSp] at hlen ⊢
        match fuel, hlen with
        | f + 1, _ =>
          rw [runSplitF, if_pos hpc, takeWhile_all hpt', dropWhile_all hpt']
          have : runSplitF p f [] = [] := by
            match f with
            | 0 => rfl
            | _ + 1 => rfl
          rw [this]
      | t2 :: rest =>
        have hJ : joinSp ((c :: t') :: t2 :: rest) = (c :: t') ++ 32 :: joinSp (t2 :: rest) := rfl
        rw [hJ] at hlen ⊢
        match fuel, hlen with
        | f + 1, hlen =>
          rw [List.cons_append, runSplitF, if_pos hpc]
          rw [show (c :: t') ++ 32 :: joinSp (t2 :: rest) = c :: (t' ++ 32 :: joinSp (t2 :: rest)) from rfl] at hlen
          have hTake : (t' ++ 32 :: joinSp (t2 :: rest)).takeWhile p = t' := by
            rw [takeWhile_append_all hpt', List.takeWhile_cons_of_neg (by simp [hsep])]
            simp
          have hDrop : (t' ++ 32 :: joinSp (t2 :: rest)).dropWhile p = 32 :: joinSp (t2 :: rest) := by
            rw [dropWhile_append_all hpt', List.dropWhile_cons_of_neg (by simp [hsep])]
          rw [hTake, hDrop]
          simp only [List.length_cons, List.length_append] at hlen
          match f, hlen with
          | f2 + 1, hlen =>
            rw [runSplitF, if_neg (by simp [hsep])]
            rw [ih f2 (fun u hu => hall u (List.mem_cons_of_mem _ hu)) (by omega)]

/-- Splitting a separator-joined list of nonempty p-tokens recovers them. -/
theorem runSplit_join {p : Nat → Bool} (hsep : p 32 = false) (ts : List (List Nat))
    (hall : ∀ t ∈ ts, t ≠ [] ∧ ∀ c ∈ t, p c = true) :
    runSplit p (joinSp ts) = ts :=
  runSplitF_join hsep ts (joinSp ts).length hall le_rfl

/-- replaceMoji leaves lists without the mojibake lead byte unchanged. -/
theorem replaceMoji_eq_self : ∀ {l : List Nat}, (∀ c ∈ l, c ≠ 226) → replaceMoji l = l := by
  intro l
  induction l using replaceMoji.induct with
  | case1 rest =>
    intro h
    exact absurd rfl (h 226 (List.mem_cons_self _ _))
  | case2 c rest hnp ih =>
    intro h
    rw [replaceMoji]
    · rw [ih (fun d hd => h d (List.mem_cons_of_mem c hd))]
    · exact hnp
  | case3 =>
    intro
    rfl

/-- Characters produced by replaceMoji come from the input or are the
apostrophe it substitutes. -/
theorem mem_replaceMoji : ∀ {l : List Nat} {c : Nat}, c ∈ replaceMoji l →
    c ∈ l ∨ c = 39 := by
  intro l
  induction l using replaceMoji.induct with
  | case1 rest ih =>
    intro c h
    rw [replaceMoji] at h
    rcases List.mem_cons.1 h with rfl | h2
    · exact Or.inr rfl
    · rcases ih h2 with h3 | h3
      · exact Or.inl (by simp [h3])
      · exact Or.inr h3
  | case2 c0 rest hnp ih =>
    intro c h
    rw [replaceMoji] at h
    · rcases List.mem_cons.1 h with rfl | h2
      · exact Or.inl (List.mem_cons_self _ _)
      · rcases ih h2 with h3 | h3
        · exact Or.inl (List.mem_cons_of_mem _ h3)
        · exact Or.inr h3
    · exact hnp
  | case3 =>
    intro c h
    simp [replaceMoji] at h

/-- pyStrip of a string whose first and last characters are non-space is the
string itself. -/
theorem pyStrip_eq_self {l : List Nat}
    (h1 : ∀ c, l.head? = some c → isSpaceChar c = false)
    (h2 : ∀ c, l.getLast? = some c → isSpaceChar c = false) : pyStrip l = l := by
  have hd : l.dropWhile isSpaceChar = l := by
    match l with
    | [] => rfl
    | c :: rest =>
      rw [List.dropWhile_cons_of_neg]
      simp [h1 c rfl]
  rw [pyStrip, hd]
  have hd2 : l.reverse.dropWhile isSpaceChar = l.reverse := by
    match hrev : l.reverse with
    | [] => rfl
    | c :: rest =>
      rw [List.dropWhile_cons_of_neg]
      have : l.getLast? = some c := by
        rw [← List.head?_reverse, hrev]
        rfl
      simp [h2 c this]
  rw [hd2, List.reverse_reverse]

/-- Membership passes through pyStrip. -/
theorem mem_of_mem_pyStrip {l : List Nat} {c : Nat} (h : c ∈ pyStrip l) : c ∈ l := by
  rw [pyStrip, List.mem_reverse] at h
  have h2 := List.Sublist.mem h (List.dropWhile_sublist _)
  rw [List.mem_reverse] at h2
  exact List.Sublist.mem h2 (List.dropWhile_sublist _)

theorem _norm_eq_joinSp (s : List Nat) : _norm s = joinSp (normToks s) := rfl

/-- Tokens of a normalization are nonempty strings of pyLower-fixed word
characters, outside the stop set. -/
theorem normToks_spec (s : List Nat) :
    ∀ t ∈ normToks s,
      (!stopWords.contains t) = true ∧ t ≠ [] ∧ ∀ c ∈ t, isWordChar c = true ∧ pyLower c = c := by
  intro t ht
  simp only [normToks] at ht
  have hstop : (!stopWords.contains t) = true := (List.mem_filter.1 ht).2
  have ht2 := (List.mem_filter.1 ht).1
  simp only [pyWordTokens, runSplit] at ht2
  rcases runSplitF_sound ht2 with ⟨hne, hall⟩
  refine ⟨hstop, hne, fun c hc => ?_⟩
  have hw := (hall c hc).1
  have hmem := mem_of_mem_pyStrip (hall c hc).2
  rcases mem_replaceMoji hmem with h3 | h3
  · exact ⟨hw, pyLower_fixed_of_mem_map h3⟩
  · exact absurd h3 (isWordChar_facts hw).2.2.1

/-- utils._norm is idempotent. -/
theorem _norm_idem (s : List Nat) : _norm (_norm s) = _norm s := by
  have hspec := normToks_spec s
  have hWordToks : ∀ t ∈ normToks s, t ≠ [] ∧ ∀ c ∈ t, isWordChar c = true :=
    fun t ht => ⟨(hspec t ht).2.1, fun c hc => ((hspec t ht).2.2 c hc).1⟩
  have hmapFix : (joinSp (normToks s)).map pyLower = joinSp (normToks s) := by
    have : ∀ c ∈ joinSp (normToks s), pyLower c = c := by
      intro c hc
      rcases mem_joinSp hc with rfl | ⟨t, ht, hct⟩
      · rfl
      · exact ((hspec t ht).2.2 c hct).2
    calc (joinSp (normToks s)).map pyLower = (joinSp (normToks s)).map id :=
          List.map_congr_left this
      _ = joinSp (normToks s) := List.map_id _
  have hmoji : replaceMoji (joinSp (normToks s)) = joinSp (normToks s) := by
    apply replaceMoji_eq_self
    intro c hc
    rcases mem_joinSp hc with rfl | ⟨t, ht, hct⟩
    · omega
    · exact (isWordChar_facts ((hWordToks t ht).2 c hct)).2.1
  have hstrip : pyStrip (joinSp (normToks s)) = joinSp (normToks s) := by
    apply pyStrip_eq_self
    · intro c hc
      exact (isWordChar_facts (head?_joinSp hWordToks c hc)).1
    · intro c hc
      exact (isWordChar_facts (getLast?_joinSp hWordToks c hc)).1
  have htoks : pyWordTokens (joinSp (normToks s)) = normToks s := by
    apply runSplit_join (by decide) _ hWordToks
  rw [_norm_eq_joinSp s, _norm_eq_joinSp (joinSp (normToks s)), normToks,
    hmapFix, hmoji, hstrip, htoks]
  congr 1
  rw [normToks, List.filter_filter]
  apply List.filter_congr
  intro t ht
  simp

/-- Splitting a normalization with str.split recovers its filtered tokens. -/
theorem pySplitWs_norm (s : List Nat) : pySplitWs (_norm s) = normToks s := by
  rw [_norm_eq_joinSp s]
  apply runSplit_join (by decide)
  intro t ht
  refine ⟨(normToks_spec s t ht).2.1, fun c hc => ?_⟩
  have := (isWordChar_facts ((normToks_spec s t ht).2.2 c hc).1).1
  simp [this]

/-- C9: normalize (_norm) is idempotent: for every input string s,
normalize(normalize(s)) == normalize(s); in particular its output consists
only of lowercase alphanumeric tokens, none in the stop-word set, joined by
single spaces (its split tokens are nonempty, stop-free strings of
pyLower-fixed word characters), and the empty string maps to itself. -/
theorem C9_norm_idempotent :
    (∀ s : List Nat, _norm (_norm s) = _norm s) ∧ _norm [] = [] ∧
    ∀ s : List Nat, ∀ t ∈ pySplitWs (_norm s),
      stopWords.contains t = false ∧ t ≠ [] ∧ ∀ c ∈ t, isWordChar c = true ∧ pyLower c = c := by
  refine ⟨_norm_idem, rfl, fun s t ht => ?_⟩
  rw [pySplitWs_norm] at ht
  rcases normToks_spec s t ht with ⟨hstop, hne, hall⟩
  exact ⟨by simpa using hstop, hne, hall⟩

/-- Witness for C9 at a concrete input. -/
theorem C9_norm_idempotent_witness :
    _norm (_norm (codes "  Fresh Extra-Firm Tofu!  ")) = _norm (codes "  Fresh Extra-Firm Tofu!  ") ∧
    stopWords.contains (codes "tofu") = false :=
  ⟨C9_norm_idempotent.1 _,
   (C9_norm_idempotent.2.2 (codes "  Fresh Extra-Firm Tofu!  ") (codes "tofu") (by decide)).1⟩


/-! ## Lemmas about the resolution engine -/

theorem mem_insSorted {α : Type} (le : α → α → Bool) (x a : α) :
    ∀ l, a ∈ insSorted le x l ↔ a = x ∨ a ∈ l := by
  intro l
  induction l with
  | nil => simp [insSorted]
  | cons y ys ih =>
    rw [insSorted]
    split <;> simp [List.mem_cons, ih] <;> tauto

theorem mem_pySort {α : Type} (le : α → α → Bool) (l : List α) (a : α) :
    a ∈ pySort le l ↔ a ∈ l := by
  suffices h : ∀ (l acc : List α), a ∈ l.foldl (fun acc x => insSorted le x acc) acc ↔
      a ∈ acc ∨ a ∈ l by
    rw [pySort, h]
    simp
  intro l
  induction l with
  | nil => simp
  | cons x xs ih =>
    intro acc
    rw [List.foldl_cons, ih, mem_insSorted, List.mem_cons]
    tauto

/-- Membership in the pre-filter list of _fuzzy_match: the index is in
range, names it back, the stored normalization is right, and the candidate
shares a token with the query. -/
theorem prelimOf_mem {qtok : List (List Nat)} {qn : List Nat} :
    ∀ {names : List (List Nat)} {i0 : Nat} {e : Nat × List Nat × List Nat},
      e ∈ prelimOf qtok qn i0 names →
      i0 ≤ e.1 ∧ e.1 - i0 < names.length ∧ names.getD (e.1 - i0) [] = e.2.1 ∧
        e.2.2 = _norm e.2.1 ∧ tokensOverlap qtok (_token_set e.2.2) = true := by
  intro names
  induction names with
  | nil => intro i0 e h; simp [prelimOf] at h
  | cons cand rest ih =>
    intro i0 e h
    rw [prelimOf] at h
    rcases List.mem_append.1 h with h1 | h2
    · split at h1
      · rename_i hkeep
        rcases List.mem_singleton.1 h1 with rfl
        exact ⟨le_rfl, by simp, by simp, rfl, hkeep.2.1⟩
      · simp at h1
    · rcases ih h2 with ⟨h3, h4, h5, h6, h7⟩
      have hk : e.1 - i0 = (e.1 - (i0 + 1)) + 1 := by omega
      refine ⟨by omega, by simp; omega, ?_, h6, h7⟩
      rw [hk]
      simpa using h5

/-- The argmax fold of the subset branch only ever returns an index carried
by the accumulator or by a list element. -/
theorem foldl_best_pred {P : Nat → Prop} {qn : List Nat} :
    ∀ (l : List (Nat × List Nat × List Nat)) (acc : Nat × ℚ),
      P acc.1 → (∀ e ∈ l, P e.1) →
      P ((l.foldl
        (fun (acc : Nat × ℚ) e =>
          let s := _combined qn e.2.2
          if acc.2 < s then (e.1, s) else acc) acc).1) := by
  intro l
  induction l with
  | nil => intro acc h _; exact h
  | cons e rest ih =>
    intro acc hacc hall
    rw [List.foldl_cons]
    apply ih
    · dsimp only
      split
      · exact hall e (List.mem_cons_self _ _)
      · exact hacc
    · exact fun e2 he2 => hall e2 (List.mem_cons_of_mem _ he2)

/-- Everything _fuzzy_match can return: the id at a surviving candidate's
index, where that candidate either token-contains the query (the subset
branch, which skips the cutoff) or scored at least the cutoff. -/
theorem fuzzy_match_some_spec {name : List Nat} {names : List (List Nat)}
    {ids : List Nat} {cutoff : ℤ} {r : Nat}
    (h : _fuzzy_match name names ids cutoff = some r) :
    ∃ e, e ∈ prelimOf (_token_set (_norm name)) (_norm name) 0 names ∧ r = ids.getD e.1 0 ∧
      (tokensSubset (_token_set (_norm name)) (_token_set e.2.2) = true ∨
        (cutoff : ℚ) ≤ _combined (_norm name) e.2.2) := by
  simp only [_fuzzy_match] at h
  split at h
  · exact absurd h (by simp)
  · split at h
    · exact absurd h (by simp)
    · split at h
      · exact absurd h (by simp)
      · split at h
        · rename_i e0 rest heq
          simp only [Option.some.injEq] at h
          have hbest := @foldl_best_pred (fun i => ∃ e, e ∈ e0 :: rest ∧ e.1 = i)
            (_norm name) (e0 :: rest) (e0.1, -1)
            ⟨e0, List.mem_cons_self _ _, rfl⟩ (fun e he => ⟨e, he, rfl⟩)
          rcases hbest with ⟨e, he, hei⟩
          rw [← heq] at he
          have he2 := List.mem_filter.1 he
          refine ⟨e, he2.1, ?_, Or.inl (by simpa using he2.2)⟩
          rw [← h, hei]
        · rename_i heqsub
          split at h
          · exact absurd h (by simp)
          · rename_i best tail heq
            split at h
            · exact absurd h (by simp)
            · split at h
              · rename_i hcut
                simp only [Option.some.injEq] at h
                have hmem : best ∈ pySort (fun x y => decide (y.1 ≤ x.1))
                    ((prelimOf (_token_set (_norm name)) (_norm name) 0 names).map
                      (fun e => (_combined (_norm name) e.2.2, e.1, e.2.1, e.2.2))) := by
                  rw [heq]
                  exact List.mem_cons_self _ _
                rw [mem_pySort] at hmem
                rcases List.mem_map.1 hmem with ⟨e, he, hbe⟩
                refine ⟨e, he, ?_, Or.inr ?_⟩
                · rw [← h, ← hbe]
                · rw [← hbe] at hcut
                  exact hcut
              · exact absurd h (by simp)

/-- C1 (amended): _fuzzy_match returns an id only at an in-range surviving
candidate index, and then either the subset-priority rule selected the
winner — in which case the id is returned regardless of the caller's cutoff
— or the winner's composite score met the cutoff. -/
theorem C1_fuzzy_match_cutoff_amended (name : List Nat) (names : List (List Nat))
    (ids : List Nat) (cutoff : ℤ) (r : Nat)
    (h : _fuzzy_match name names ids cutoff = some r) :
    ∃ i, i < names.length ∧ r = ids.getD i 0 ∧
      (tokensSubset (_token_set (_norm name)) (_token_set (_norm (names.getD i []))) = true ∨
        (cutoff : ℚ) ≤ _combined (_norm name) (_norm (names.getD i []))) := by
  rcases fuzzy_match_some_spec h with ⟨e, he, hr, hcond⟩
  rcases prelimOf_mem he with ⟨_, hlt, hname, hnorm, _⟩
  simp only [Nat.sub_zero] at hlt hname
  refine ⟨e.1, hlt, hr, ?_⟩
  rw [hname, ← hnorm]
  exact hcond

/-- C1 counterexample: with the catalog ["tofu alpha bravo charlie delta
echo"] and the callers' cutoff 90, the query "tofu" is a token subset of the
only candidate, so the subset branch returns its id 7 even though the
candidate's composite score is 82, below the cutoff — the claim that an id
is returned only when the score meets the cutoff is false on this input. -/
theorem C1_fuzzy_match_cutoff_counterexample :
    _fuzzy_match (codes "tofu") [codes "tofu alpha bravo charlie delta echo"] [7] 90 = some 7 ∧
    _combined (_norm (codes "tofu"))
      (_norm (codes "tofu alpha bravo charlie delta echo")) < (90 : ℚ) := by
  constructor
  · decide
  · decide

/-- Witness for the amended C1 at the spec's own example
resolve("Chicken Breast", ["Chicken Breast", "Chicken Thigh"], [1, 2], 90). -/
theorem C1_fuzzy_match_cutoff_amended_witness :
    ∃ i, i < 2 ∧ 1 = [1, 2].getD i 0 ∧
      (tokensSubset (_token_set (_norm (codes "Chicken Breast")))
        (_token_set (_norm ([codes "Chicken Breast", codes "Chicken Thigh"].getD i []))) = true ∨
        ((90 : ℤ) : ℚ) ≤ _combined (_norm (codes "Chicken Breast"))
          (_norm ([codes "Chicken Breast", codes "Chicken Thigh"].getD i []))) := by
  have h := C1_fuzzy_match_cutoff_amended (codes "Chicken Breast")
    [codes "Chicken Breast", codes "Chicken Thigh"] [1, 2] 90 1 (by decide)
  simpa using h

/-- C10: under the length precondition, _fuzzy_match is none on the empty
catalog, and otherwise returns none or the id stored at an in-range index
whose candidate shares a normalized token with the query. -/
theorem C10_fuzzy_match_safe (name : List Nat) (names : List (List Nat)) (ids : List Nat)
    (cutoff : ℤ) (h : names.length = ids.length) :
    (names = [] → _fuzzy_match name names ids cutoff = none) ∧
    (_fuzzy_match name names ids cutoff = none ∨
      ∃ i, i < names.length ∧ i < ids.length ∧
        _fuzzy_match name names ids cutoff = some (ids.getD i 0) ∧
        tokensOverlap (_token_set (_norm name))
          (_token_set (_norm (names.getD i []))) = true) := by
  constructor
  · intro he
    subst he
    rw [_fuzzy_match]
    simp
  · match hm : _fuzzy_match name names ids cutoff with
    | none => exact Or.inl rfl
    | some r =>
      right
      rcases fuzzy_match_some_spec hm with ⟨e, he, hr, _⟩
      rcases prelimOf_mem he with ⟨_, hlt, hname, hnorm, hover⟩
      simp only [Nat.sub_zero] at hlt hname
      refine ⟨e.1, hlt, by omega, by rw [hr], ?_⟩
      rw [hname, ← hnorm]
      exact hover

/-- Witness for C10 at a concrete catalog. -/
theorem C10_fuzzy_match_safe_witness :
    ([codes "Olive Oil", codes "Boil"] = [] →
      _fuzzy_match (codes "oil") [codes "Olive Oil", codes "Boil"] [4, 5] 90 = none) ∧
    (_fuzzy_match (codes "oil") [codes "Olive Oil", codes "Boil"] [4, 5] 90 = none ∨
      ∃ i, i < 2 ∧ i < 2 ∧
        _fuzzy_match (codes "oil") [codes "Olive Oil", codes "Boil"] [4, 5] 90 =
          some ([4, 5].getD i 0) ∧
        tokensOverlap (_token_set (_norm (codes "oil")))
          (_token_set (_norm ([codes "Olive Oil", codes "Boil"].getD i []))) = true) := by
  have h := C10_fuzzy_match_safe (codes "oil") [codes "Olive Oil", codes "Boil"] [4, 5] 90 rfl
  simpa using h


/-! ## Lemmas about ingredient creation -/

theorem pyDictSet_mem {α β : Type} [DecidableEq α] {m : List (α × β)} {k : α} {v : β}
    {kv : α × β} (h : kv ∈ pyDictSet m k v) : kv ∈ m ∨ kv.2 = v := by
  rw [pyDictSet] at h
  split at h
  · rcases List.mem_map.1 h with ⟨kv0, hm, heq⟩
    by_cases hk : kv0.1 = k
    · rw [if_pos hk] at heq
      exact Or.inr (by rw [← heq])
    · rw [if_neg hk] at heq
      exact Or.inl (heq ▸ hm)
  · rcases List.mem_append.1 h with h1 | h1
    · exact Or.inl h1
    · rcases List.mem_singleton.1 h1 with rfl
      exact Or.inr rfl

theorem pyDictSet_keys_nodup {α β : Type} [DecidableEq α] {m : List (α × β)} (k : α) (v : β)
    (h : (m.map Prod.fst).Nodup) : ((pyDictSet m k v).map Prod.fst).Nodup := by
  rw [pyDictSet]
  split
  · have heq : (m.map (fun kv => if kv.1 = k then (k, v) else kv)).map Prod.fst =
        m.map Prod.fst := by
      rw [List.map_map]
      apply List.map_congr_left
      intro kv _
      by_cases hk : kv.1 = k <;> simp [hk]
    rw [heq]
    exact h
  · rename_i hany
    rw [List.map_append]
    have hkn : k ∉ m.map Prod.fst := by
      intro hk
      rcases List.mem_map.1 hk with ⟨kv0, hm, heq⟩
      exact hany (List.any_eq_true.2 ⟨kv0, hm, by simp [heq]⟩)
    simp only [List.map_cons, List.map_nil]
    rw [List.nodup_append]
    exact ⟨h, List.nodup_singleton k, by simpa using hkn⟩

/-- The generator call log of the card-gathering loop is exactly the batch,
in order: one call per occurrence of each name. -/
theorem newCardsLoop_calls (gen : List Nat → Option Card) (names : List (List Nat)) :
    (newCardsLoop gen names).2 = names := by
  suffices h : ∀ (l : List (List Nat)) (st : List (List Nat × Card) × List (List Nat)),
      (l.foldl (fun st name =>
        match gen name with
        | some card => (pyDictSet st.1 name card, st.2 ++ [name])
        | none => (st.1, st.2 ++ [name])) st).2 = st.2 ++ l by
    simpa using h names ([], [])
  intro l
  induction l with
  | nil => intro st; simp
  | cons name rest ih =>
    intro st
    rw [List.foldl_cons]
    match hg : gen name with
    | some card => rw [ih]; simp
    | none => rw [ih]; simp

/-- The card dict keeps at most one card per raw name. -/
theorem newCardsLoop_keys_nodup (gen : List Nat → Option Card) (names : List (List Nat)) :
    ((newCardsLoop gen names).1.map Prod.fst).Nodup := by
  suffices h : ∀ (l : List (List Nat)) (st : List (List Nat × Card) × List (List Nat)),
      (st.1.map Prod.fst).Nodup →
      ((l.foldl (fun st name =>
        match gen name with
        | some card => (pyDictSet st.1 name card, st.2 ++ [name])
        | none => (st.1, st.2 ++ [name])) st).1.map Prod.fst).Nodup by
    exact h names ([], []) (by simp)
  intro l
  induction l with
  | nil => intro st h; exact h
  | cons name rest ih =>
    intro st h
    rw [List.foldl_cons]
    match hg : gen name with
    | some card => exact ih _ (pyDictSet_keys_nodup name card h)
    | none => exact ih _ h

/-- What a successful insert loop guarantees: the pending catalog only grew
by rows at the reference mass 100 whose lower-cased names duplicate neither
a pre-existing row nor each other, and every id it recorded is either
inherited or names a row of the final pending catalog. -/
theorem createLoop_spec {flushOk : Nat → Bool} :
    ∀ {cards : List (List Nat × Card)} {pend : Catalog} {ids0 : List (List Nat × Nat)}
      {k : Nat} {pend' : Catalog} {ids' : List (List Nat × Nat)},
      createLoop flushOk cards pend ids0 k = .ok (pend', ids') →
      ∃ new, pend'.rows = pend.rows ++ new ∧
        (∀ r ∈ new, r.unit_weight = 100 ∧
          ∀ r0 ∈ pend.rows, lowerName r.name ≠ lowerName r0.name) ∧
        new.Pairwise (fun r s => lowerName r.name ≠ lowerName s.name) ∧
        (∀ kv ∈ ids', kv ∈ ids0 ∨ ∃ r ∈ pend'.rows, r.id = kv.2) ∧
        (∀ uc ∈ cards, ∃ r ∈ pend'.rows, lowerName r.name = lowerName uc.1) := by
  intro cards
  induction cards with
  | nil =>
    intro pend ids0 k pend' ids' h
    rw [createLoop] at h
    simp only [Except.ok.injEq, Prod.mk.injEq] at h
    rcases h with ⟨h1, h2⟩
    subst h1
    subst h2
    exact ⟨[], by simp, by simp, by simp, fun kv hkv => Or.inl hkv, by simp⟩
  | cons uc rest ih =>
    intro pend ids0 k pend' ids' h
    obtain ⟨uname, card⟩ := uc
    rw [createLoop] at h
    split at h
    · rename_i r hfind
      rcases ih h with ⟨new, h1, h2, h3, h4, h5a⟩
      have hrmem : r ∈ pend'.rows := by
        rw [h1]
        exact List.mem_append_left _ (List.mem_of_find?_eq_some hfind)
      refine ⟨new, h1, h2, h3, fun kv hkv => ?_, fun uc2 huc2 => ?_⟩
      · rcases h4 kv hkv with h5 | h5
        · rcases pyDictSet_mem h5 with h6 | h6
          · exact Or.inl h6
          · exact Or.inr ⟨r, hrmem, h6.symm⟩
        · exact Or.inr h5
      · rcases List.mem_cons.1 huc2 with rfl | huc3
        · have := List.find?_some hfind
          simp only [beq_iff_eq] at this
          exact ⟨r, hrmem, this⟩
        · exact h5a uc2 huc3
    · rename_i hfind
      split at h
      · rcases ih h with ⟨new, h1, h2, h3, h4, h5a⟩
        have hnames : ∀ r0 ∈ pend.rows, lowerName uname ≠ lowerName r0.name := by
          intro r0 hr0 heq
          have := List.find?_eq_none.1 hfind r0 hr0
          simp only [beq_iff_eq] at this
          exact this heq.symm
        have hingmem : (⟨pend.nextId, uname, card.calories, card.protein, card.carbs,
            card.fat, 100⟩ : Ing) ∈ pend'.rows := by
          rw [h1]
          exact List.mem_append_left _ (by simp)
        refine ⟨⟨pend.nextId, uname, card.calories, card.protein, card.carbs,
          card.fat, 100⟩ :: new, ?_, ?_, ?_, ?_, ?_⟩
        · rw [h1]
          simp
        · intro r hr
          rcases List.mem_cons.1 hr with rfl | hr2
          · exact ⟨rfl, fun r0 hr0 => hnames r0 hr0⟩
          · refine ⟨(h2 r hr2).1, fun r0 hr0 => (h2 r hr2).2 r0 ?_⟩
            exact List.mem_append_left _ hr0
        · rw [List.pairwise_cons]
          refine ⟨fun r hr => ?_, h3⟩
          have := (h2 r hr).2 ⟨pend.nextId, uname, card.calories, card.protein,
            card.carbs, card.fat, 100⟩ (by simp)
          exact fun heq => this heq.symm
        · intro kv hkv
          rcases h4 kv hkv with h5 | h5
          · rcases pyDictSet_mem h5 with h6 | h6
            · exact Or.inl h6
            · exact Or.inr ⟨⟨pend.nextId, uname, card.calories, card.protein,
                card.carbs, card.fat, 100⟩, hingmem, h6.symm⟩
          · exact Or.inr h5
        · intro uc2 huc2
          rcases List.mem_cons.1 huc2 with rfl | huc3
          · exact ⟨⟨pend.nextId, uname, card.calories, card.protein, card.carbs,
              card.fat, 100⟩, hingmem, rfl⟩
          · exact h5a uc2 huc3
      · exact absurd h (by simp)

/-- C2: a successful creation batch only appends rows at the reference mass
100 whose lower-cased names duplicate neither a pre-existing catalog row
(those are reused instead) nor another row created by the same batch, every
id the batch reports names a row of the resulting catalog, and every card
gathered for the batch ends up with a case-insensitively matching row. -/
theorem C2_create_missing_dedup (gen : List Nat → Option Card) (flushOk : Nat → Bool)
    (commitOk : Bool) (names : List (List Nat)) (cat : Catalog)
    (ids : List (List Nat × Nat))
    (h : (create_new_ingredients gen flushOk commitOk names cat).1 = .ok ids) :
    ∃ new,
      (create_new_ingredients gen flushOk commitOk names cat).2.1.rows = cat.rows ++ new ∧
      (∀ r ∈ new, r.unit_weight = 100 ∧
        ∀ r0 ∈ cat.rows, lowerName r.name ≠ lowerName r0.name) ∧
      new.Pairwise (fun r s => lowerName r.name ≠ lowerName s.name) ∧
      (∀ kv ∈ ids, ∃ r ∈ (create_new_ingredients gen flushOk commitOk names cat).2.1.rows,
        r.id = kv.2) ∧
      ∀ uc ∈ (newCardsLoop gen names).1,
        ∃ r ∈ (create_new_ingredients gen flushOk commitOk names cat).2.1.rows,
          lowerName r.name = lowerName uc.1 := by
  rw [create_new_ingredients] at h ⊢
  split at h
  · exact absurd h (by simp)
  · rename_i pr hcl
    match hco : commitOk with
    | false => exact absurd h (by simp)
    | true =>
      rw [if_pos rfl] at h ⊢
      simp only [Except.ok.injEq] at h
      subst h
      rcases createLoop_spec hcl with ⟨new, h1, h2, h3, h4, h5a⟩
      refine ⟨new, by simpa using h1, h2, h3, fun kv hkv => ?_, fun uc huc => ?_⟩
      · rcases h4 kv hkv with h5 | h5
        · simp at h5
        · simpa using h5
      · simpa using h5a uc huc

/-- Witness for C2: the batch ["Tofu", "tofu"] creates one row and reuses
its id for the case-insensitive duplicate. -/
theorem C2_create_missing_dedup_witness :
    ∃ new,
      (create_new_ingredients (fun _ => some ⟨100, 10, 5, 2⟩) (fun _ => true) true
        [codes "Tofu", codes "tofu"] ⟨[], 0⟩).2.1.rows = (Catalog.mk [] 0).rows ++ new ∧
      (∀ r ∈ new, r.unit_weight = 100 ∧
        ∀ r0 ∈ (Catalog.mk [] 0).rows, lowerName r.name ≠ lowerName r0.name) ∧
      new.Pairwise (fun r s => lowerName r.name ≠ lowerName s.name) ∧
      (∀ kv ∈ [(codes "tofu", 0)],
        ∃ r ∈ (create_new_ingredients (fun _ => some ⟨100, 10, 5, 2⟩) (fun _ => true) true
          [codes "Tofu", codes "tofu"] ⟨[], 0⟩).2.1.rows, r.id = kv.2) ∧
      ∀ uc ∈ (newCardsLoop (fun _ => some ⟨100, 10, 5, 2⟩)
          [codes "Tofu", codes "tofu"]).1,
        ∃ r ∈ (create_new_ingredients (fun _ => some ⟨100, 10, 5, 2⟩) (fun _ => true) true
          [codes "Tofu", codes "tofu"] ⟨[], 0⟩).2.1.rows,
          lowerName r.name = lowerName uc.1 :=
  C2_create_missing_dedup (fun _ => some ⟨100, 10, 5, 2⟩) (fun _ => true) true
    [codes "Tofu", codes "tofu"] ⟨[], 0⟩ [(codes "tofu", 0)] (by rfl)

/-- C3: create_new_ingredients is all-or-nothing: a failure while inserting
or committing leaves the committed catalog exactly as it was and propagates
the error; a normal return means the commit succeeded and the whole batch
outcome of the insert loop is what was committed. -/
theorem C3_create_rollback (gen : List Nat → Option Card) (flushOk : Nat → Bool)
    (commitOk : Bool) (names : List (List Nat)) (cat : Catalog) :
    ((create_new_ingredients gen flushOk commitOk names cat).1 = .error () →
      (create_new_ingredients gen flushOk commitOk names cat).2.1 = cat) ∧
    (∀ ids, (create_new_ingredients gen flushOk commitOk names cat).1 = .ok ids →
      commitOk = true ∧
      createLoop flushOk (newCardsLoop gen names).1 cat [] 0 =
        .ok ((create_new_ingredients gen flushOk commitOk names cat).2.1, ids)) := by
  rw [create_new_ingredients]
  split
  · exact ⟨fun _ => rfl, fun ids h => absurd h (by simp)⟩
  · rename_i pr hcl
    match hco : commitOk with
    | false =>
      rw [if_neg (by simp)]
      exact ⟨fun _ => rfl, fun ids h => absurd h (by simp)⟩
    | true =>
      rw [if_pos rfl]
      refine ⟨fun h => absurd h (by simp), fun ids h => ?_⟩
      simp only [Except.ok.injEq] at h
      subst h
      exact ⟨rfl, hcl⟩

/-- Witness for C3: an injected commit failure leaves the catalog unchanged. -/
theorem C3_create_rollback_witness :
    (create_new_ingredients (fun _ => some ⟨100, 10, 5, 2⟩) (fun _ => true) false
      [codes "Tofu"] ⟨[], 0⟩).2.1 = ⟨[], 0⟩ :=
  (C3_create_rollback (fun _ => some ⟨100, 10, 5, 2⟩) (fun _ => true) false
    [codes "Tofu"] ⟨[], 0⟩).1 (by rfl)

/-- C8 (amended): the nutrition-generation collaborator is called once per
occurrence of a name in the unknown-name batch — so a duplicated name is
sent to it more than once — while at most one card per distinct raw name is
retained for the insert pass. -/
theorem C8_generator_calls_amended (gen : List Nat → Option Card) (flushOk : Nat → Bool)
    (commitOk : Bool) (names : List (List Nat)) (cat : Catalog) :
    (create_new_ingredients gen flushOk commitOk names cat).2.2 = names ∧
    ((newCardsLoop gen names).1.map Prod.fst).Nodup := by
  refine ⟨?_, newCardsLoop_keys_nodup gen names⟩
  rw [create_new_ingredients]
  split
  · exact newCardsLoop_calls gen names
  · split
    · exact newCardsLoop_calls gen names
    · exact newCardsLoop_calls gen names

/-- C8 counterexample: a batch holding the same name twice calls the
generator twice for it, refuting "at most once per distinct name". -/
theorem C8_generator_calls_counterexample :
    (create_new_ingredients (fun _ => none) (fun _ => true) true
      [codes "tofu", codes "tofu"] ⟨[], 0⟩).2.2.count (codes "tofu") = 2 ∧
    ¬ (create_new_ingredients (fun _ => none) (fun _ => true) true
      [codes "tofu", codes "tofu"] ⟨[], 0⟩).2.2.count (codes "tofu") ≤ 1 := by
  constructor
  · decide
  · decide


/-! ## Lemmas about the router -/

/-- C4: if the classifier collaborator raises, or answers a category outside
the known set, classify_and_respond resolves to "conversation"; being a
total function of the collaborator outcome, it propagates no exception. -/
theorem C4_classifier_fallback (res : Except Unit ClassifierOut)
    (h : res = .error () ∨
      ∃ out, res = .ok out ∧ out.category.getD (codes "conversation") ∉ CATEGORIES) :
    (classify_and_respond res false).1 = codes "conversation" := by
  rcases h with rfl | ⟨out, rfl, hcat⟩
  · rfl
  · rw [classify_and_respond.eq_def]
    rw [if_neg (by simp)]
    simp only
    rw [if_neg hcat]

/-- Witness for C4: an unknown category answer falls back to conversation. -/
theorem C4_classifier_fallback_witness :
    (classify_and_respond (.ok ⟨some (codes "pizza"), codes "R", none⟩) false).1 =
      codes "conversation" :=
  C4_classifier_fallback (.ok ⟨some (codes "pizza"), codes "R", none⟩)
    (Or.inr ⟨⟨some (codes "pizza"), codes "R", none⟩, rfl, by decide⟩)

/-- No string in the fixed negative-reply set contains a digit, so a
negative reply never carries an extractable quantity. -/
theorem negative_no_grams {t : List Nat} (h : _is_negative_reply t = true) :
    _extract_grams t = none := by
  rw [_is_negative_reply] at h
  rw [_extract_grams]
  split
  · rfl
  · have hmem : ((pyStrip t).map pyLower) ∈ negativeSet := by
      rcases List.contains_iff_exists_mem_beq.1 h with ⟨x, hx, hbeq⟩
      exact (eq_of_beq hbeq) ▸ hx
    simp only [negativeSet, List.mem_cons] at hmem
    rcases hmem with hs | hs | hs | hs | hs | hs | hs | hs
    · rw [hs]; decide
    · rw [hs]; decide
    · rw [hs]; decide
    · rw [hs]; decide
    · rw [hs]; decide
    · rw [hs]; decide
    · rw [hs]; decide
    · exact absurd hs (List.not_mem_nil _)

/-- C5 (amended): with an open meal-logging clarification carrying a stored
item and a positive extractable quantity in the reply, the router resolves
analyze_meal and rewrites the outgoing input to the canonical
"{item} {grams} g" string — where grams prints with Python float formatting
(so 150 becomes "150.0"). -/
theorem C5_router_rewrite_amended (res : Except Unit ClassifierOut) (userInput : List Nat)
    (hasImage : Bool) (log : List Msg) (item : List Nat) (g : ℚ)
    (habout : (_last_clarification_about (historyWindow log)).1 = some (codes "meal_logging"))
    (hitem : metaItem (_last_clarification_about (historyWindow log)).2.2 = some item)
    (hne : item ≠ [])
    (hg : _extract_grams userInput = some g) (hpos : 0 < g) :
    (coordinator_process res userInput hasImage log).category = some (codes "analyze_meal") ∧
    (coordinator_process res userInput hasImage log).user_input =
      item ++ [32] ++ pyFloatStr g ++ [32, 103] := by
  have hneg : _is_negative_reply userInput = false := by
    match hb : _is_negative_reply userInput with
    | false => rfl
    | true => rw [negative_no_grams hb] at hg; exact absurd hg (by simp)
  rw [coordinator_process]
  simp only [habout, hitem, hg, hneg]
  rw [if_neg (by simp)]
  rw [if_pos (by simp [gramsPos, hpos])]
  simp [pyOrStr, hne]

/-- C5 counterexample: in exactly the spec's scenario (stored item "eggs",
reply "about 150g") the rewritten input is "eggs 150.0 g": Python formats
the float 150.0 into the f-string, so the claimed exact string
"eggs 150 g" is not produced. -/
theorem C5_router_rewrite_counterexample :
    (coordinator_process (Except.error ()) (codes "about 150g") false
      [⟨codes "user", codes "i had eggs", some (codes "clarification"),
         some (metaCat (codes "clarification"))⟩,
       ⟨codes "assistant", codes "ASK", some (codes "clarification"),
         some (metaCoordClar (some (codes "meal_logging")) (some (codes "eggs")))⟩]).category =
      some (codes "analyze_meal") ∧
    (coordinator_process (Except.error ()) (codes "about 150g") false
      [⟨codes "user", codes "i had eggs", some (codes "clarification"),
         some (metaCat (codes "clarification"))⟩,
       ⟨codes "assistant", codes "ASK", some (codes "clarification"),
         some (metaCoordClar (some (codes "meal_logging")) (some (codes "eggs")))⟩]).user_input =
      codes "eggs 150.0 g" ∧
    codes "eggs 150.0 g" ≠ codes "eggs 150 g" := by
  refine ⟨by decide, by decide, by decide⟩

/-- Witness for the amended C5 at the spec's scenario. -/
theorem C5_router_rewrite_amended_witness :
    (coordinator_process (Except.error ()) (codes "about 150g") false
      [⟨codes "user", codes "i had eggs", some (codes "clarification"),
         some (metaCat (codes "clarification"))⟩,
       ⟨codes "assistant", codes "ASK", some (codes "clarification"),
         some (metaCoordClar (some (codes "meal_logging")) (some (codes "eggs")))⟩]).category =
      some (codes "analyze_meal") ∧
    (coordinator_process (Except.error ()) (codes "about 150g") false
      [⟨codes "user", codes "i had eggs", some (codes "clarification"),
         some (metaCat (codes "clarification"))⟩,
       ⟨codes "assistant", codes "ASK", some (codes "clarification"),
         some (metaCoordClar (some (codes "meal_logging")) (some (codes "eggs")))⟩]).user_input =
      codes "eggs" ++ [32] ++ pyFloatStr 150 ++ [32, 103] :=
  C5_router_rewrite_amended (Except.error ()) (codes "about 150g") false
    [⟨codes "user", codes "i had eggs", some (codes "clarification"),
       some (metaCat (codes "clarification"))⟩,
     ⟨codes "assistant", codes "ASK", some (codes "clarification"),
       some (metaCoordClar (some (codes "meal_logging")) (some (codes "eggs")))⟩]
    (codes "eggs") 150 (by decide) (by decide) (by decide) (by decide) (by decide)

/-- C6: on the input "1 block (~300 g)" — listed in the code's own comment
and suggested verbatim to users by the router's clarification prompt — the
quantity extractor returns 1.0 (the leading count), not 300.0: the first
regex match starts at the leading "1", whose trailing word boundary
(space before "block") succeeds with the unit group empty. -/
theorem C6_extract_grams_one_block :
    _extract_grams (codes "1 block (~300 g)") = some 1 ∧ (1 : ℚ) ≠ 300 := by
  refine ⟨by decide, by decide⟩


theorem role_user_beq_self : (codes "user" == codes "user") = true := by decide

theorem role_assistant_beq_user : (codes "assistant" == codes "user") = false := by decide

theorem userRoleCount_append (a b : List Msg) :
    userRoleCount (a ++ b) = userRoleCount a + userRoleCount b := by
  simp [userRoleCount, List.filter_append]

/-- AnalyzerAgent.process appends exactly one user-role message, whether or
not the creation batch fails. -/
theorem analyzer_appends_userCount (creationFails hasImage : Bool) (userInput : List Nat) :
    userRoleCount (analyzer_appends creationFails hasImage userInput) = 1 := by
  rw [analyzer_appends]
  cases creationFails <;>
    simp [userRoleCount, List.filter, role_user_beq_self, role_assistant_beq_user]

/-- RecipeGenerationAgent.process appends exactly one user-role message
(the re-saved incoming user message) and no other. -/
theorem recipe_appends_userCount (userInput : List Nat) :
    userRoleCount (recipe_appends userInput) = 1 := by
  simp [recipe_appends, userRoleCount, List.filter, role_user_beq_self]

/-- WebSearchAgent.process appends no user-role message (only the assistant
response). -/
theorem webSearch_appends_userCount (html : List Nat) (m : Option Meta) :
    userRoleCount (webSearch_appends html m) = 0 := by
  simp [webSearch_appends, userRoleCount, List.filter, role_assistant_beq_user]

/-- CoachingAgent.process appends nothing to the chat log. -/
theorem coaching_appends_userCount : userRoleCount coaching_appends = 0 := by
  simp [coaching_appends, userRoleCount]

/-- CoordinatorAgent.process appends exactly one user-role message on every
path. -/
theorem coordinator_appends_userCount (res : Except Unit ClassifierOut)
    (userInput : List Nat) (hasImage : Bool) (log : List Msg) :
    userRoleCount (coordinator_process res userInput hasImage log).appended = 1 := by
  simp only [coordinator_process]
  split_ifs <;> (try split) <;>
    simp [userRoleCount, List.filter, role_user_beq_self, role_assistant_beq_user]

/-- C7 (amended): the router itself appends exactly one user-role message
per turn; a turn routed to the meal analyzer or to the recipe generator
receives a second user-role append from that handler (each re-saves the
incoming user message), for two in total, while every other resolved
category — conversation, clarification, web search (whose handler appends
only an assistant-role message) and coaching (whose handler appends
nothing) — leaves the turn at exactly one. -/
theorem C7_turn_user_appends_amended (res : Except Unit ClassifierOut)
    (userInput : List Nat) (hasImage : Bool) (log : List Msg) (creationFails : Bool)
    (searchHtml : List Nat) (searchMeta : Option Meta) :
    userRoleCount (coordinator_process res userInput hasImage log).appended = 1 ∧
    userRoleCount
        (turn res userInput hasImage log creationFails searchHtml searchMeta).2 =
      (if (coordinator_process res userInput hasImage log).category =
            some (codes "analyze_meal") ∨
          (coordinator_process res userInput hasImage log).category =
            some (codes "recipe_generation") then 2 else 1) := by
  refine ⟨coordinator_appends_userCount res userInput hasImage log, ?_⟩
  simp only [turn]
  by_cases h1 : (coordinator_process res userInput hasImage log).category =
      some (codes "analyze_meal")
  · rw [if_pos h1, if_pos (Or.inl h1)]
    dsimp only
    rw [userRoleCount_append, coordinator_appends_userCount, analyzer_appends_userCount]
  · rw [if_neg h1]
    by_cases h2 : (coordinator_process res userInput hasImage log).category =
        some (codes "recipe_generation")
    · rw [if_pos h2, if_pos (Or.inr h2)]
      dsimp only
      rw [userRoleCount_append, coordinator_appends_userCount, recipe_appends_userCount]
    · have hor : ¬((coordinator_process res userInput hasImage log).category =
            some (codes "analyze_meal") ∨
          (coordinator_process res userInput hasImage log).category =
            some (codes "recipe_generation")) := fun h => h.elim h1 h2
      rw [if_neg h2, if_neg hor]
      by_cases h3 : (coordinator_process res userInput hasImage log).category =
          some (codes "web_search")
      · rw [if_pos h3]
        dsimp only
        rw [userRoleCount_append, coordinator_appends_userCount,
          webSearch_appends_userCount]
      · rw [if_neg h3]
        by_cases h4 : (coordinator_process res userInput hasImage log).category =
            some (codes "coaching")
        · rw [if_pos h4]
          dsimp only
          rw [userRoleCount_append, coordinator_appends_userCount,
            coaching_appends_userCount]
        · rw [if_neg h4]
          dsimp only
          rw [coordinator_appends_userCount]

/-- C7 counterexample: the quantity-reply turn resolves analyze_meal, and
the coordinator and the analyzer each append a user-role copy — two
user-role messages for one turn, refuting "exactly one, counting the
downstream handler". -/
theorem C7_turn_user_appends_counterexample :
    userRoleCount (turn (Except.error ()) (codes "about 150g") false
      [⟨codes "user", codes "i had eggs", some (codes "clarification"),
         some (metaCat (codes "clarification"))⟩,
       ⟨codes "assistant", codes "ASK", some (codes "clarification"),
         some (metaCoordClar (some (codes "meal_logging")) (some (codes "eggs")))⟩]
      false [] none).2 = 2 ∧ (2 : Nat) ≠ 1 := by
  refine ⟨by decide, by decide⟩

end NutriSpec
